import Mathlib

/-!
Verification development for the SimDock browser docking front-end.

This file gives a shallow embedding, in Lean 4, of the claim-relevant parts
of the TypeScript sources:

  * `src/simdock-app/src/utils/gridboxCalculator.ts`
  * `src/simdock-app/src/utils/pdbqtConverter.ts`
  * `src/simdock-app/src/services/dockingService.ts` (`parseVinaOutput`)
  * `src/simdock-app/src/db/db.ts` (receptor versioning helpers)
  * `src/simdock-app/src/db/repositories/projectRepository.ts`

Modelling conventions:

  * JavaScript strings are modelled as `List Char` (`JStr`); the JS string
    methods used by the sources (`substring`, `trim`, `split`, `startsWith`,
    `includes`, `padStart`, `padEnd`, `toUpperCase`) are given executable
    definitions on `JStr`.
  * JavaScript numbers are modelled by exact rationals `ℚ`; `NaN` is
    modelled by `Option ℚ` (`none` = NaN) where the sources can produce it.
    IEEE-754 rounding, overflow and infinities are idealised away: the
    numeric text processed by these sources is fixed-column decimal text.
  * `Math.round`, `Math.min`, `Math.max`, `toFixed(3)` and the two decimal
    parsers `parseFloat` / `parseInt` are modelled over `ℚ`/`ℤ` following
    the ECMAScript decimal grammar (half-up rounding for `Math.round`,
    half-away-from-zero for `toFixed`).
  * The IndexedDB tables behind the repositories are modelled as lists held
    in a state record, and the repository operations as pure state
    transformers; `Date` fields are omitted (no claim depends on them) and
    the `uuid` generator is modelled by passing the fresh id explicitly.
-/

namespace SimDock

/-- JavaScript strings, modelled as lists of characters. -/
abbrev JStr := List Char

/-- Whitespace characters recognised by JS `trim`, `split(/\s+/)` and the
number parsers (the ASCII subset that can occur in the processed files). -/
def isWSChar (c : Char) : Bool :=
  c = ' ' || c = '\t' || c = '\n' || c = '\r' || c = '\x0b' || c = '\x0c'

/-- JS `String.prototype.substring(a, b)` (call sites all have `a < b`). -/
def jsSubstring (l : JStr) (a b : Nat) : JStr :=
  (l.take b).drop a

/-- JS `String.prototype.trim`. -/
def jsTrim (l : JStr) : JStr :=
  ((l.dropWhile isWSChar).reverse.dropWhile isWSChar).reverse

/-- ASCII uppercasing of one character, as done by JS `toUpperCase` on the
character data occurring in PDB/SDF files. -/
def jsUpperChar (c : Char) : Char :=
  match c with
  | 'a' => 'A' | 'b' => 'B' | 'c' => 'C' | 'd' => 'D' | 'e' => 'E' | 'f' => 'F'
  | 'g' => 'G' | 'h' => 'H' | 'i' => 'I' | 'j' => 'J' | 'k' => 'K' | 'l' => 'L'
  | 'm' => 'M' | 'n' => 'N' | 'o' => 'O' | 'p' => 'P' | 'q' => 'Q' | 'r' => 'R'
  | 's' => 'S' | 't' => 'T' | 'u' => 'U' | 'v' => 'V' | 'w' => 'W' | 'x' => 'X'
  | 'y' => 'Y' | 'z' => 'Z'
  | other => other

/-- JS `String.prototype.toUpperCase`. -/
def jsToUpper (l : JStr) : JStr :=
  l.map jsUpperChar

/-- JS `String.prototype.padStart(n)` with the default space padding. -/
def padStart (l : JStr) (n : Nat) : JStr :=
  List.replicate (n - l.length) ' ' ++ l

/-- JS `String.prototype.padEnd(n)` with the default space padding. -/
def padEnd (l : JStr) (n : Nat) : JStr :=
  l ++ List.replicate (n - l.length) ' '

/-- Left zero-padding (used to build `toFixed(3)` output). -/
def padZeros (l : JStr) (n : Nat) : JStr :=
  List.replicate (n - l.length) '0' ++ l

/-- JS falsy-string default: `s || d`. -/
def jsOrStr (l d : JStr) : JStr :=
  if l = [] then d else l

/-- JS falsy-number default on an integer: `n || d` (`NaN` and `0` are
falsy). -/
def jsOrInt (o : Option ℤ) (d : ℤ) : ℤ :=
  match o with
  | some n => if n = 0 then d else n
  | none => d

/-- Digit extraction with an explicit structural fuel (the fuel only pads
the recursion depth; `n` itself always suffices, see `natToChars_eq`). -/
def natToCharsAux : Nat → Nat → JStr
  | n, 0 => [Char.ofNat (48 + n)]
  | n, fuel + 1 =>
    if n < 10 then [Char.ofNat (48 + n)]
    else natToCharsAux (n / 10) fuel ++ [Char.ofNat (48 + n % 10)]

/-- Decimal digits of a natural number, most significant first
(JS `Number.prototype.toString` on a natural). -/
def natToChars (n : Nat) : JStr :=
  natToCharsAux n n

/-- JS `Number.prototype.toString` on an integer-valued number. -/
def intToChars (i : ℤ) : JStr :=
  if i < 0 then '-' :: natToChars i.natAbs else natToChars i.natAbs

/-- Value of a list of decimal digit characters. -/
def digitsVal (l : JStr) : Nat :=
  l.foldl (fun acc c => acc * 10 + (c.toNat - 48)) 0

/-- Splitting a string at newline characters: JS `content.split('\n')`. -/
def splitNLAux : JStr → JStr → List JStr
  | [], cur => [cur.reverse]
  | c :: rest, cur =>
    if c = '\n' then cur.reverse :: splitNLAux rest []
    else splitNLAux rest (c :: cur)

/-- JS `content.split('\n')`. -/
def splitNL (l : JStr) : List JStr :=
  splitNLAux l []

/-- JS `lines.join('\n')`. -/
def joinNL : List JStr → JStr
  | [] => []
  | [a] => a
  | a :: rest => a ++ '\n' :: joinNL rest

/-- JS `line.split(/\s+/)`: split at maximal whitespace runs; a leading or
trailing run contributes an empty field. -/
def splitWSAux : JStr → JStr → List JStr
  | [], cur => [cur.reverse]
  | c :: rest, cur =>
    if isWSChar c then cur.reverse :: splitWSAux (rest.dropWhile isWSChar) []
    else splitWSAux rest (c :: cur)
termination_by l _ => l.length
decreasing_by
  · exact Nat.lt_succ_of_le (List.dropWhile_suffix _).length_le
  · exact Nat.lt_succ_self _

/-- JS `line.split(/\s+/)`. -/
def splitWS (l : JStr) : List JStr :=
  splitWSAux l []

/-- Hexadecimal digit value (for the `parseInt` `0x` branch). -/
def hexDigitVal (c : Char) : Option Nat :=
  if c.isDigit then some (c.toNat - 48)
  else if 'a' ≤ c ∧ c ≤ 'f' then some (c.toNat - 87)
  else if 'A' ≤ c ∧ c ≤ 'F' then some (c.toNat - 55)
  else none

/-- Exponent part of the JS `parseFloat` grammar (an invalid exponent part
is ignored, as `parseFloat` takes the longest valid literal prefix). -/
def parseExp (l : JStr) : ℤ :=
  match l with
  | [] => 0
  | c :: rest =>
    if c = 'e' ∨ c = 'E' then
      match rest with
      | '-' :: r2 =>
        let ds := r2.takeWhile Char.isDigit
        if ds = [] then 0 else -(digitsVal ds : ℤ)
      | '+' :: r2 =>
        let ds := r2.takeWhile Char.isDigit
        if ds = [] then 0 else (digitsVal ds : ℤ)
      | r2 =>
        let ds := r2.takeWhile Char.isDigit
        if ds = [] then 0 else (digitsVal ds : ℤ)
    else 0

/-- JS `parseFloat`: leading whitespace, optional sign, decimal digits with
optional fraction and exponent; `none` models `NaN`. -/
def parseFloatJS (l : JStr) : Option ℚ :=
  let l1 := l.dropWhile isWSChar
  let sgn : ℚ := match l1 with | '-' :: _ => -1 | _ => 1
  let l2 := match l1 with | '-' :: r => r | '+' :: r => r | _ => l1
  let ip := l2.takeWhile Char.isDigit
  let l3 := l2.dropWhile Char.isDigit
  let fpp : JStr × JStr :=
    match l3 with
    | '.' :: r => (r.takeWhile Char.isDigit, r.dropWhile Char.isDigit)
    | _ => ([], l3)
  if ip = [] ∧ fpp.1 = [] then none
  else some (sgn * ((digitsVal ip : ℚ) + (digitsVal fpp.1 : ℚ) / ((10 : ℚ) ^ fpp.1.length))
    * (10 : ℚ) ^ parseExp fpp.2)

/-- JS `parseInt` with no radix argument: leading whitespace, optional sign,
then hexadecimal on a `0x` prefix and decimal otherwise; `none` models
`NaN`. -/
def parseIntJS (l : JStr) : Option ℤ :=
  let l1 := l.dropWhile isWSChar
  let sgn : ℤ := match l1 with | '-' :: _ => -1 | _ => 1
  let l2 := match l1 with | '-' :: r => r | '+' :: r => r | _ => l1
  let dec : Option ℤ :=
    let ds := l2.takeWhile Char.isDigit
    if ds = [] then none else some (sgn * (digitsVal ds : ℤ))
  match l2 with
  | '0' :: x :: rest =>
    if x = 'x' ∨ x = 'X' then
      let ds := rest.takeWhile (fun c => (hexDigitVal c).isSome)
      if ds = [] then none
      else some (sgn * (ds.foldl (fun acc c => acc * 16 + ((hexDigitVal c).getD 0)) 0 : ℕ))
    else dec
  | _ => dec

/-- JS `Math.round` (half rounds toward positive infinity). -/
def jsRound (q : ℚ) : ℤ :=
  ⌊q + 1 / 2⌋

/-- `Math.round(q * 100) / 100`: rounding to two decimals, as done for the
gridbox center. -/
def round2 (q : ℚ) : ℚ :=
  (jsRound (q * 100) : ℚ) / 100

/-! ## gridboxCalculator.ts -/

/-- A parsed 3D coordinate (`interface Coordinate`). -/
structure Coordinate where
  x : ℚ
  y : ℚ
  z : ℚ
deriving DecidableEq

/-- The gridbox record (`interface Gridbox` in `db.ts`). -/
structure Gridbox where
  centerX : ℚ
  centerY : ℚ
  centerZ : ℚ
  sizeX : ℚ
  sizeY : ℚ
  sizeZ : ℚ
deriving DecidableEq

/-- The default gridbox returned for an empty coordinate list. -/
def defaultGridbox : Gridbox :=
  { centerX := 0, centerY := 0, centerZ := 0, sizeX := 20, sizeY := 20, sizeZ := 20 }

/-- `calculateGridboxFromCoords` (gridboxCalculator.ts, lines 17-65).
The JS bounding-box loop starts from `±Infinity`; on a non-empty list this
is the same as folding `min`/`max` from the first element, which is how the
non-empty case is written here. -/
def calculateGridboxFromCoords (coords : List Coordinate) (padding : ℚ) : Gridbox :=
  match coords with
  | [] => defaultGridbox
  | c0 :: rest =>
    let minX := rest.foldl (fun m c => min m c.x) c0.x
    let maxX := rest.foldl (fun m c => max m c.x) c0.x
    let minY := rest.foldl (fun m c => min m c.y) c0.y
    let maxY := rest.foldl (fun m c => max m c.y) c0.y
    let minZ := rest.foldl (fun m c => min m c.z) c0.z
    let maxZ := rest.foldl (fun m c => max m c.z) c0.z
    let centerX := (minX + maxX) / 2
    let centerY := (minY + maxY) / 2
    let centerZ := (minZ + maxZ) / 2
    let sizeX := max 20 ((maxX - minX) + padding * 2)
    let sizeY := max 20 ((maxY - minY) + padding * 2)
    let sizeZ := max 20 ((maxZ - minZ) + padding * 2)
    { centerX := round2 centerX
      centerY := round2 centerY
      centerZ := round2 centerZ
      sizeX := (jsRound sizeX : ℚ)
      sizeY := (jsRound sizeY : ℚ)
      sizeZ := (jsRound sizeZ : ℚ) }

/-- Coordinate extraction from one line in `calculateGridboxFromPDBQT`
(ATOM/HETATM fixed columns, kept only when no component is NaN). -/
def coordOfPDBQTLine (line : JStr) : Option Coordinate :=
  if "ATOM".data.isPrefixOf line ∨ "HETATM".data.isPrefixOf line then
    match parseFloatJS (jsSubstring line 30 38), parseFloatJS (jsSubstring line 38 46),
        parseFloatJS (jsSubstring line 46 54) with
    | some x, some y, some z => some { x := x, y := y, z := z }
    | _, _, _ => none
  else none

/-- The coordinate list collected by `calculateGridboxFromPDBQT`. -/
def pdbqtGridCoords (content : JStr) : List Coordinate :=
  (splitNL content).filterMap coordOfPDBQTLine

/-- `calculateGridboxFromPDBQT` (gridboxCalculator.ts, lines 70-87). -/
def calculateGridboxFromPDBQT (content : JStr) (padding : ℚ) : Gridbox :=
  calculateGridboxFromCoords (pdbqtGridCoords content) padding

/-- Match of the SDF counts-line pattern (JS regex `^\s*(\d+)\s+(\d+)`). -/
def countsLineMatch (l : JStr) : Bool :=
  let r1 := l.dropWhile isWSChar
  let d1 := r1.takeWhile Char.isDigit
  let r2 := r1.dropWhile Char.isDigit
  let w := r2.takeWhile isWSChar
  let r3 := r2.dropWhile isWSChar
  decide (d1 ≠ []) && decide (w ≠ []) && (match r3 with | c :: _ => c.isDigit | [] => false)

/-- Counts-line search of `calculateGridboxFromSDF`: scan lines `3..9` for
the counts pattern, returning `(atomCount, startLine)`, and `(0, 0)` when no
line matches. -/
def sdfGridCounts (lines : List JStr) : Nat × Nat :=
  match (List.range' 3 (min 10 lines.length - 3)).find?
      (fun i => countsLineMatch (lines.getD i [])) with
  | none => (0, 0)
  | some i =>
    let d1 := ((lines.getD i []).dropWhile isWSChar).takeWhile Char.isDigit
    (digitsVal d1, i + 1)

/-- The coordinate list collected by `calculateGridboxFromSDF`. -/
def sdfGridCoords (content : JStr) : List Coordinate :=
  let lines := splitNL content
  let ac := sdfGridCounts lines
  (List.range ac.1).filterMap (fun k =>
    match lines.get? (ac.2 + k) with
    | none => none
    | some line =>
      let parts := splitWS (jsTrim line)
      if 3 ≤ parts.length then
        match parseFloatJS (parts.getD 0 []), parseFloatJS (parts.getD 1 []),
            parseFloatJS (parts.getD 2 []) with
        | some x, some y, some z => some { x := x, y := y, z := z }
        | _, _, _ => none
      else none)

/-- `calculateGridboxFromSDF` (gridboxCalculator.ts, lines 92-123). -/
def calculateGridboxFromSDF (content : JStr) (padding : ℚ) : Gridbox :=
  calculateGridboxFromCoords (sdfGridCoords content) padding

/-- Coordinate extraction from one HETATM line in
`calculateGridboxFromBoundLigand` (waters `HOH`/`WAT` are skipped). -/
def coordOfHETATMLine (line : JStr) : Option Coordinate :=
  if "HETATM".data.isPrefixOf line then
    if jsTrim (jsSubstring line 17 20) = "HOH".data ∨
        jsTrim (jsSubstring line 17 20) = "WAT".data then none
    else
      match parseFloatJS (jsSubstring line 30 38), parseFloatJS (jsSubstring line 38 46),
          parseFloatJS (jsSubstring line 46 54) with
      | some x, some y, some z => some { x := x, y := y, z := z }
      | _, _, _ => none
  else none

/-- The HETATM coordinate list collected by `calculateGridboxFromBoundLigand`. -/
def boundLigandCoords (content : JStr) : List Coordinate :=
  (splitNL content).filterMap coordOfHETATMLine

/-- `calculateGridboxFromBoundLigand` (gridboxCalculator.ts, lines 129-156). -/
def calculateGridboxFromBoundLigand (content : JStr) (padding : ℚ) : Gridbox :=
  let coords := boundLigandCoords content
  if coords = [] then calculateGridboxFromPDBQT content padding
  else calculateGridboxFromCoords coords padding

/-! ## Support lemmas: folded minima/maxima and rounding bounds -/

lemma foldl_min_le_init (l : List Coordinate) (f : Coordinate → ℚ) (a : ℚ) :
    l.foldl (fun m c => min m (f c)) a ≤ a := by
  induction l generalizing a with
  | nil => exact le_refl a
  | cons d t ih => exact le_trans (ih (min a (f d))) (min_le_left _ _)

lemma foldl_min_le (l : List Coordinate) (f : Coordinate → ℚ) (a : ℚ) {c : Coordinate}
    (hc : c ∈ l) : l.foldl (fun m c => min m (f c)) a ≤ f c := by
  induction l generalizing a with
  | nil => cases hc
  | cons d t ih =>
    rcases List.mem_cons.mp hc with rfl | hmem
    · exact le_trans (foldl_min_le_init t f (min a (f c))) (min_le_right _ _)
    · exact ih (min a (f d)) hmem

lemma foldl_min_mem (l : List Coordinate) (f : Coordinate → ℚ) (a : ℚ) :
    l.foldl (fun m c => min m (f c)) a = a ∨
      ∃ c ∈ l, l.foldl (fun m c => min m (f c)) a = f c := by
  induction l generalizing a with
  | nil => exact Or.inl rfl
  | cons d t ih =>
    rcases ih (min a (f d)) with h | ⟨c, hcmem, hc⟩
    · rcases min_cases a (f d) with ⟨hmin, _⟩ | ⟨hmin, _⟩
      · exact Or.inl (by simpa [hmin] using h)
      · exact Or.inr ⟨d, List.mem_cons_self d t, by simpa [hmin] using h⟩
    · exact Or.inr ⟨c, List.mem_cons_of_mem d hcmem, hc⟩

lemma foldl_max_ge_init (l : List Coordinate) (f : Coordinate → ℚ) (a : ℚ) :
    a ≤ l.foldl (fun m c => max m (f c)) a := by
  induction l generalizing a with
  | nil => exact le_refl a
  | cons d t ih => exact le_trans (le_max_left _ _) (ih (max a (f d)))

lemma foldl_max_ge (l : List Coordinate) (f : Coordinate → ℚ) (a : ℚ) {c : Coordinate}
    (hc : c ∈ l) : f c ≤ l.foldl (fun m c => max m (f c)) a := by
  induction l generalizing a with
  | nil => cases hc
  | cons d t ih =>
    rcases List.mem_cons.mp hc with rfl | hmem
    · exact le_trans (le_max_right _ _) (foldl_max_ge_init t f (max a (f c)))
    · exact ih (max a (f d)) hmem

lemma foldl_max_mem (l : List Coordinate) (f : Coordinate → ℚ) (a : ℚ) :
    l.foldl (fun m c => max m (f c)) a = a ∨
      ∃ c ∈ l, l.foldl (fun m c => max m (f c)) a = f c := by
  induction l generalizing a with
  | nil => exact Or.inl rfl
  | cons d t ih =>
    rcases ih (max a (f d)) with h | ⟨c, hcmem, hc⟩
    · rcases max_cases a (f d) with ⟨hmax, _⟩ | ⟨hmax, _⟩
      · exact Or.inl (by simpa [hmax] using h)
      · exact Or.inr ⟨d, List.mem_cons_self d t, by simpa [hmax] using h⟩
    · exact Or.inr ⟨c, List.mem_cons_of_mem d hcmem, hc⟩

lemma jsRound_le (q : ℚ) : (jsRound q : ℚ) ≤ q + 1 / 2 := by
  unfold jsRound
  exact Int.floor_le (q + 1 / 2)

lemma jsRound_ge (q : ℚ) : q - 1 / 2 ≤ (jsRound q : ℚ) := by
  have h := Int.lt_floor_add_one (q + 1 / 2)
  unfold jsRound
  push_cast at h ⊢
  linarith

lemma round2_le (q : ℚ) : round2 q ≤ q + 1 / 200 := by
  have h := jsRound_le (q * 100)
  unfold round2
  linarith

lemma round2_ge (q : ℚ) : q - 1 / 200 ≤ round2 q := by
  have h := jsRound_ge (q * 100)
  unfold round2
  linarith

lemma twenty_le_jsRound_max (x : ℚ) : (20 : ℚ) ≤ (jsRound (max 20 x) : ℚ) := by
  have h : (20 : ℤ) ≤ jsRound (max 20 x) := by
    apply Int.le_floor.mpr
    have := le_max_left (20 : ℚ) x
    push_cast
    linarith
  exact_mod_cast h

/-- One-axis form of the C1 bound: the rounded center plus/minus half the
rounded padded size still covers the unrounded extent. -/
lemma axis_bound {lo hi v center size : ℚ} (h1 : lo ≤ v) (h2 : v ≤ hi)
    (hcenter : center = round2 ((lo + hi) / 2))
    (hsize : size = (jsRound (max 20 ((hi - lo) + 10 * 2)) : ℚ)) :
    center - size / 2 ≤ v ∧ v ≤ center + size / 2 := by
  subst hcenter hsize
  have hr1 := round2_le ((lo + hi) / 2)
  have hr2 := round2_ge ((lo + hi) / 2)
  have hm : (hi - lo) + 10 * 2 ≤ max 20 ((hi - lo) + 10 * 2) := le_max_right _ _
  have hj := jsRound_ge (max 20 ((hi - lo) + 10 * 2))
  generalize hR : round2 ((lo + hi) / 2) = R at hr1 hr2 ⊢
  generalize hM : max 20 ((hi - lo) + 10 * 2) = M at hm hj ⊢
  generalize hJ : (jsRound M : ℚ) = J at hj ⊢
  constructor <;> linarith

lemma calcGridbox_cons (c0 : Coordinate) (rest : List Coordinate) (p : ℚ) :
    calculateGridboxFromCoords (c0 :: rest) p =
      { centerX := round2 ((rest.foldl (fun m c => min m c.x) c0.x
            + rest.foldl (fun m c => max m c.x) c0.x) / 2)
        centerY := round2 ((rest.foldl (fun m c => min m c.y) c0.y
            + rest.foldl (fun m c => max m c.y) c0.y) / 2)
        centerZ := round2 ((rest.foldl (fun m c => min m c.z) c0.z
            + rest.foldl (fun m c => max m c.z) c0.z) / 2)
        sizeX := (jsRound (max 20 ((rest.foldl (fun m c => max m c.x) c0.x
            - rest.foldl (fun m c => min m c.x) c0.x) + p * 2)) : ℚ)
        sizeY := (jsRound (max 20 ((rest.foldl (fun m c => max m c.y) c0.y
            - rest.foldl (fun m c => min m c.y) c0.y) + p * 2)) : ℚ)
        sizeZ := (jsRound (max 20 ((rest.foldl (fun m c => max m c.z) c0.z
            - rest.foldl (fun m c => min m c.z) c0.z) + p * 2)) : ℚ) } := rfl

/-- One axis of claim C1, fully assembled. -/
lemma axis_claim (c0 : Coordinate) (rest : List Coordinate) (f : Coordinate → ℚ)
    {c : Coordinate} (hc : c ∈ c0 :: rest) :
    (round2 ((rest.foldl (fun m c => min m (f c)) (f c0)
          + rest.foldl (fun m c => max m (f c)) (f c0)) / 2)
        - (jsRound (max 20 ((rest.foldl (fun m c => max m (f c)) (f c0)
            - rest.foldl (fun m c => min m (f c)) (f c0)) + 10 * 2)) : ℚ) / 2 ≤ f c ∧
      f c ≤ round2 ((rest.foldl (fun m c => min m (f c)) (f c0)
          + rest.foldl (fun m c => max m (f c)) (f c0)) / 2)
        + (jsRound (max 20 ((rest.foldl (fun m c => max m (f c)) (f c0)
            - rest.foldl (fun m c => min m (f c)) (f c0)) + 10 * 2)) : ℚ) / 2) ∧
    ∃ lo hi, lo ∈ (c0 :: rest).map f ∧ hi ∈ (c0 :: rest).map f ∧
      (∀ a ∈ (c0 :: rest).map f, lo ≤ a ∧ a ≤ hi) ∧
      round2 ((rest.foldl (fun m c => min m (f c)) (f c0)
          + rest.foldl (fun m c => max m (f c)) (f c0)) / 2)
        = round2 ((lo + hi) / 2) := by
  set lo := rest.foldl (fun m c => min m (f c)) (f c0) with hlo
  set hi := rest.foldl (fun m c => max m (f c)) (f c0) with hhi
  have hlo_le : ∀ a ∈ c0 :: rest, lo ≤ f a := by
    intro a ha
    rcases List.mem_cons.mp ha with rfl | hmem
    · exact foldl_min_le_init rest f (f a)
    · exact foldl_min_le rest f (f c0) hmem
  have hhi_ge : ∀ a ∈ c0 :: rest, f a ≤ hi := by
    intro a ha
    rcases List.mem_cons.mp ha with rfl | hmem
    · exact foldl_max_ge_init rest f (f a)
    · exact foldl_max_ge rest f (f c0) hmem
  have hlo_mem : lo ∈ (c0 :: rest).map f := by
    rcases foldl_min_mem rest f (f c0) with h | ⟨c', hc', h⟩
    · exact List.mem_map.mpr ⟨c0, List.mem_cons_self c0 rest, h.symm⟩
    · exact List.mem_map.mpr ⟨c', List.mem_cons_of_mem c0 hc', h.symm⟩
  have hhi_mem : hi ∈ (c0 :: rest).map f := by
    rcases foldl_max_mem rest f (f c0) with h | ⟨c', hc', h⟩
    · exact List.mem_map.mpr ⟨c0, List.mem_cons_self c0 rest, h.symm⟩
    · exact List.mem_map.mpr ⟨c', List.mem_cons_of_mem c0 hc', h.symm⟩
  refine ⟨axis_bound (hlo_le c hc) (hhi_ge c hc) rfl rfl, lo, hi, hlo_mem, hhi_mem, ?_, rfl⟩
  intro a ha
  rcases List.mem_map.mp ha with ⟨c', hc', rfl⟩
  exact ⟨hlo_le c' hc', hhi_ge c' hc'⟩

/-- Claim C1: for every non-empty list of (exact, finite) coordinates and
the default padding of 10, `calculateGridboxFromCoords` returns a gridbox
bounding every input coordinate on each axis, and each center component is
the midpoint of the bounding box on that axis, rounded to two decimals. -/
theorem claim_C1_gridbox_bounds (coords : List Coordinate) (c : Coordinate)
    (hc : c ∈ coords) :
    ((calculateGridboxFromCoords coords 10).centerX
        - (calculateGridboxFromCoords coords 10).sizeX / 2 ≤ c.x ∧
      c.x ≤ (calculateGridboxFromCoords coords 10).centerX
        + (calculateGridboxFromCoords coords 10).sizeX / 2) ∧
    ((calculateGridboxFromCoords coords 10).centerY
        - (calculateGridboxFromCoords coords 10).sizeY / 2 ≤ c.y ∧
      c.y ≤ (calculateGridboxFromCoords coords 10).centerY
        + (calculateGridboxFromCoords coords 10).sizeY / 2) ∧
    ((calculateGridboxFromCoords coords 10).centerZ
        - (calculateGridboxFromCoords coords 10).sizeZ / 2 ≤ c.z ∧
      c.z ≤ (calculateGridboxFromCoords coords 10).centerZ
        + (calculateGridboxFromCoords coords 10).sizeZ / 2) ∧
    (∃ lo hi, lo ∈ coords.map Coordinate.x ∧ hi ∈ coords.map Coordinate.x ∧
      (∀ a ∈ coords.map Coordinate.x, lo ≤ a ∧ a ≤ hi) ∧
      (calculateGridboxFromCoords coords 10).centerX = round2 ((lo + hi) / 2)) ∧
    (∃ lo hi, lo ∈ coords.map Coordinate.y ∧ hi ∈ coords.map Coordinate.y ∧
      (∀ a ∈ coords.map Coordinate.y, lo ≤ a ∧ a ≤ hi) ∧
      (calculateGridboxFromCoords coords 10).centerY = round2 ((lo + hi) / 2)) ∧
    (∃ lo hi, lo ∈ coords.map Coordinate.z ∧ hi ∈ coords.map Coordinate.z ∧
      (∀ a ∈ coords.map Coordinate.z, lo ≤ a ∧ a ≤ hi) ∧
      (calculateGridboxFromCoords coords 10).centerZ = round2 ((lo + hi) / 2)) := by
  match coords with
  | [] => cases hc
  | c0 :: rest =>
    rw [calcGridbox_cons]
    obtain ⟨hbx, hex⟩ := axis_claim c0 rest Coordinate.x hc
    obtain ⟨hby, hey⟩ := axis_claim c0 rest Coordinate.y hc
    obtain ⟨hbz, hez⟩ := axis_claim c0 rest Coordinate.z hc
    exact ⟨hbx, hby, hbz, hex, hey, hez⟩

/-- Witness for C1 at a concrete one-point coordinate list. -/
theorem claim_C1_gridbox_bounds_witness :
    (calculateGridboxFromCoords [{ x := 1, y := 2, z := 3 }] 10).centerX
        - (calculateGridboxFromCoords [{ x := 1, y := 2, z := 3 }] 10).sizeX / 2 ≤ (1 : ℚ) :=
  (claim_C1_gridbox_bounds [{ x := 1, y := 2, z := 3 }] { x := 1, y := 2, z := 3 }
    (List.mem_singleton.mpr rfl)).1.1

lemma sizes_ge_twenty (coords : List Coordinate) (padding : ℚ) :
    20 ≤ (calculateGridboxFromCoords coords padding).sizeX ∧
    20 ≤ (calculateGridboxFromCoords coords padding).sizeY ∧
    20 ≤ (calculateGridboxFromCoords coords padding).sizeZ := by
  match coords with
  | [] => exact ⟨le_refl _, le_refl _, le_refl _⟩
  | c0 :: rest =>
    rw [calcGridbox_cons]
    exact ⟨twenty_le_jsRound_max _, twenty_le_jsRound_max _, twenty_le_jsRound_max _⟩

/-- Claim C9: every gridbox produced by `calculateGridboxFromCoords` (for
any padding, hence in particular the default 10 used by the PDBQT, SDF and
bound-ligand entry points) has all three sizes at least 20, and whenever an
entry point parses no coordinates the result is the default gridbox
centered at the origin with all sizes exactly 20. -/
theorem claim_C9_min_sizes :
    (∀ (coords : List Coordinate) (padding : ℚ),
      20 ≤ (calculateGridboxFromCoords coords padding).sizeX ∧
      20 ≤ (calculateGridboxFromCoords coords padding).sizeY ∧
      20 ≤ (calculateGridboxFromCoords coords padding).sizeZ) ∧
    (∀ content : JStr,
      (20 ≤ (calculateGridboxFromPDBQT content 10).sizeX ∧
        20 ≤ (calculateGridboxFromPDBQT content 10).sizeY ∧
        20 ≤ (calculateGridboxFromPDBQT content 10).sizeZ) ∧
      (pdbqtGridCoords content = [] → calculateGridboxFromPDBQT content 10 = defaultGridbox)) ∧
    (∀ content : JStr,
      (20 ≤ (calculateGridboxFromSDF content 10).sizeX ∧
        20 ≤ (calculateGridboxFromSDF content 10).sizeY ∧
        20 ≤ (calculateGridboxFromSDF content 10).sizeZ) ∧
      (sdfGridCoords content = [] → calculateGridboxFromSDF content 10 = defaultGridbox)) ∧
    (∀ content : JStr,
      (20 ≤ (calculateGridboxFromBoundLigand content 10).sizeX ∧
        20 ≤ (calculateGridboxFromBoundLigand content 10).sizeY ∧
        20 ≤ (calculateGridboxFromBoundLigand content 10).sizeZ) ∧
      (boundLigandCoords content = [] → pdbqtGridCoords content = [] →
        calculateGridboxFromBoundLigand content 10 = defaultGridbox)) := by
  refine ⟨sizes_ge_twenty, ?_, ?_, ?_⟩
  · intro content
    refine ⟨sizes_ge_twenty _ _, ?_⟩
    intro h
    simp [calculateGridboxFromPDBQT, h, calculateGridboxFromCoords]
  · intro content
    refine ⟨sizes_ge_twenty _ _, ?_⟩
    intro h
    simp [calculateGridboxFromSDF, h, calculateGridboxFromCoords]
  · intro content
    constructor
    · unfold calculateGridboxFromBoundLigand
      by_cases h : boundLigandCoords content = []
      · simpa [h] using sizes_ge_twenty (pdbqtGridCoords content) 10
      · simpa [h] using sizes_ge_twenty (boundLigandCoords content) 10
    · intro h1 h2
      simp [calculateGridboxFromBoundLigand, h1, calculateGridboxFromPDBQT, h2,
        calculateGridboxFromCoords]

/-- Witness for C9: the empty-input entry points produce the default
gridbox, and sizes stay at least 20 on a concrete coordinate list. -/
theorem claim_C9_min_sizes_witness :
    calculateGridboxFromPDBQT "no atoms here".data 10 = defaultGridbox ∧
    20 ≤ (calculateGridboxFromCoords [{ x := 0, y := 0, z := 0 }] 10).sizeX :=
  ⟨(claim_C9_min_sizes.2.1 "no atoms here".data).2 (by decide),
    (claim_C9_min_sizes.1 [{ x := 0, y := 0, z := 0 }] 10).1⟩

/-! ## db.ts and projectRepository.ts: the IndexedDB data model

The five Dexie tables are modelled as lists in a state record, the
repository operations as pure state transformers.  `Date` fields are
omitted (no claim depends on them) and `uuid` fresh ids are passed as
explicit arguments. -/

/-- Stored project row (`interface Project`). -/
structure Project where
  id : String
  name : String
  description : Option String
deriving DecidableEq

/-- Stored receptor row (`interface Receptor`), with the "Git for Proteins"
`version` / `parentVersionId` fields. -/
structure Receptor where
  id : String
  projectId : String
  name : String
  pdbId : Option String
  version : Nat
  parentVersionId : Option String
  pdbqtContent : String
  gridbox : Option Gridbox
deriving DecidableEq

/-- Stored ligand row (`interface Ligand`). -/
structure Ligand where
  id : String
  projectId : String
  name : String
  pdbqtContent : String
deriving DecidableEq

/-- `type JobStatus`. -/
inductive JobStatus where
  | pending
  | running
  | completed
  | failed
deriving DecidableEq

/-- Stored docking job row (`interface DockingJob`). -/
structure DockingJob where
  id : String
  projectId : String
  receptorId : String
  receptorVersionId : String
  status : JobStatus
deriving DecidableEq

/-- Stored docking result row (`interface DockingResult`). -/
structure DockingResult where
  id : String
  jobId : String
  ligandId : String
  pose : Nat
  score : ℚ
  rmsd : ℚ
  pdbqtContent : String
deriving DecidableEq

/-- The five tables of `SimDockDatabase`. -/
structure SimDB where
  projects : List Project
  receptors : List Receptor
  ligands : List Ligand
  dockingJobs : List DockingJob
  dockingResults : List DockingResult
deriving DecidableEq

/-- Dexie `db.receptors.get(primaryKey)`. -/
def dbGetReceptor (s : SimDB) (id : String) : Option Receptor :=
  s.receptors.find? (fun r => r.id == id)

/-- The updatable fields passed to `createReceptorVersion`. -/
structure VersionUpdates where
  pdbqtContent : Option String
  gridbox : Option Gridbox
deriving DecidableEq

/-- `createReceptorVersion` (db.ts, lines 186-208): throw if the parent id
is unknown, otherwise append a new row copying the parent with
`version + 1`, `parentVersionId` pointing at the parent, and the updated
content/gridbox fields. -/
def createReceptorVersion (s : SimDB) (parentId : String) (updates : VersionUpdates)
    (freshId : String) : Except String (SimDB × Receptor) :=
  match dbGetReceptor s parentId with
  | none => .error ("Parent receptor not found: " ++ parentId)
  | some parent =>
    let newVersion : Receptor :=
      { id := freshId
        projectId := parent.projectId
        name := parent.name
        pdbId := parent.pdbId
        version := parent.version + 1
        parentVersionId := some parentId
        pdbqtContent := updates.pdbqtContent.getD parent.pdbqtContent
        gridbox := match updates.gridbox with | some g => some g | none => parent.gridbox }
    .ok ({ s with receptors := s.receptors ++ [newVersion] }, newVersion)

/-- The children query of `receptorRepository.getVersionTree`
(projectRepository.ts, lines 169-183): all receptors whose
`parentVersionId` equals the given id. -/
def childrenOf (s : SimDB) (receptorId : String) : List Receptor :=
  s.receptors.filter (fun r => r.parentVersionId == some receptorId)

/-- The `[projectId+name]` compound-index query used by the versioning
helpers in db.ts. -/
def versionsOf (s : SimDB) (projectId rname : String) : List Receptor :=
  s.receptors.filter (fun r => r.projectId == projectId && r.name == rname)

/-- `getLatestReceptorVersion` (db.ts, lines 234-248): `Array.reduce`
keeping the receptor with the strictly larger version. -/
def getLatestReceptorVersion (s : SimDB) (projectId rname : String) : Option Receptor :=
  match versionsOf s projectId rname with
  | [] => none
  | v :: vs => some (vs.foldl (fun latest current =>
      if latest.version < current.version then current else latest) v)

/-- Association-list lookup, modelling JS `Map.prototype.get`. -/
def mapGet {α β : Type} [DecidableEq α] : List (α × β) → α → Option β
  | [], _ => none
  | p :: t, k => if p.1 = k then some p.2 else mapGet t k

/-- Association-list update, modelling JS `Map.prototype.set`: replace the
entry in place when the key is present (JS `Map` keeps the original
insertion position), append otherwise. -/
def mapSet {α β : Type} [DecidableEq α] : List (α × β) → α → β → List (α × β)
  | [], k, v => [(k, v)]
  | p :: t, k, v => if p.1 = k then (k, v) :: t else p :: mapSet t k v

/-- One iteration of the `latestByName` grouping loop in
`receptorRepository.getByProject`: keep the incumbent unless the new
receptor's version is strictly larger (or the name is new). -/
def latestByNameStep (acc : List (String × Receptor)) (r : Receptor) :
    List (String × Receptor) :=
  match mapGet acc r.name with
  | none => mapSet acc r.name r
  | some existing => if existing.version < r.version then mapSet acc r.name r else acc

/-- `receptorRepository.getByProject` (projectRepository.ts, lines
116-133): group the project's receptors by name keeping the highest
version, then return the map's values. -/
def getByProject (s : SimDB) (projectId : String) : List Receptor :=
  (((s.receptors.filter (fun r => r.projectId == projectId)).foldl latestByNameStep []).map
    Prod.snd)

/-- `projectRepository.delete` (projectRepository.ts, lines 49-73): the
cascading delete transaction as a pure state transformer.  Results are
deleted per job id in a loop, mirroring the source. -/
def projectDelete (s : SimDB) (id : String) : SimDB :=
  let jobs := s.dockingJobs.filter (fun j => j.projectId == id)
  let jobIds := jobs.map DockingJob.id
  let resultsAfter := jobIds.foldl
    (fun acc jobId => acc.filter (fun dr => !(dr.jobId == jobId))) s.dockingResults
  { projects := s.projects.filter (fun p => !(p.id == id))
    receptors := s.receptors.filter (fun r => !(r.projectId == id))
    ligands := s.ligands.filter (fun l => !(l.projectId == id))
    dockingJobs := s.dockingJobs.filter (fun j => !(j.projectId == id))
    dockingResults := resultsAfter }

/-! ## Claims C2 and C10 -/

/-- Claim C2, amended: every version created by `createReceptorVersion`
points at its parent and increments the parent's version by one, and the
new row is appended to the store; but nothing prevents creating two
versions from the same parent, so a version may have more than one child
(see the counterexample below). -/
theorem claim_C2_version_links (s : SimDB) (parentId freshId : String)
    (updates : VersionUpdates) (s' : SimDB) (r : Receptor)
    (h : createReceptorVersion s parentId updates freshId = .ok (s', r)) :
    r.parentVersionId = some parentId ∧ r.id = freshId ∧
    ∃ parent, dbGetReceptor s parentId = some parent ∧
      r.version = parent.version + 1 ∧ s'.receptors = s.receptors ++ [r] := by
  unfold createReceptorVersion at h
  cases hp : dbGetReceptor s parentId with
  | none => rw [hp] at h; cases h
  | some parent =>
    rw [hp] at h
    simp only [Except.ok.injEq, Prod.mk.injEq] at h
    obtain ⟨hs, hr⟩ := h
    subst hr
    exact ⟨rfl, rfl, parent, rfl, rfl, by rw [← hs]⟩

/-- Fixed root receptor used for the C2 witness and counterexample. -/
def c2Receptor : Receptor :=
  { id := "r0", projectId := "p", name := "rec", pdbId := none, version := 1,
    parentVersionId := none, pdbqtContent := "", gridbox := none }

/-- A store holding only the root receptor. -/
def c2State : SimDB :=
  { projects := [], receptors := [c2Receptor], ligands := [], dockingJobs := [],
    dockingResults := [] }

/-- Empty update record (`createVersion` with no changed fields). -/
def c2NoUpdates : VersionUpdates :=
  { pdbqtContent := none, gridbox := none }

/-- The expected first child version of `c2Receptor`. -/
def c2Child : Receptor :=
  { id := "r1", projectId := "p", name := "rec", pdbId := none, version := 2,
    parentVersionId := some "r0", pdbqtContent := "", gridbox := none }

/-- Witness for C2 on the concrete one-receptor store. -/
theorem claim_C2_version_links_witness :
    c2Child.parentVersionId = some "r0" ∧ c2Child.id = "r1" ∧
    ∃ parent, dbGetReceptor c2State "r0" = some parent ∧
      c2Child.version = parent.version + 1 ∧
      ({ c2State with receptors := c2State.receptors ++ [c2Child] } : SimDB).receptors
        = c2State.receptors ++ [c2Child] :=
  claim_C2_version_links c2State "r0" "r1" c2NoUpdates
    { c2State with receptors := c2State.receptors ++ [c2Child] } c2Child (by rfl)

/-- The store obtained by creating two versions from the same parent
`r0` (both calls succeed; the error fallbacks are never taken). -/
def c2Branched : SimDB :=
  match createReceptorVersion c2State "r0" c2NoUpdates "r1" with
  | .error _ => c2State
  | .ok (s1, _) =>
    match createReceptorVersion s1 "r0" c2NoUpdates "r2" with
    | .error _ => s1
    | .ok (s2, _) => s2

/-- Counterexample to claim C2 as stated: after two `createReceptorVersion`
calls on the same parent, version `r0` has two distinct children, so the
version history is not a linear chain with at most one child per version. -/
theorem claim_C2_counterexample :
    (createReceptorVersion c2State "r0" c2NoUpdates "r1").isOk = true ∧
    (childrenOf c2Branched "r0").length = 2 ∧
    ¬ (childrenOf c2Branched "r0").length ≤ 1 := by
  refine ⟨by rfl, by rfl, by decide⟩

/-- Membership after the per-job result-deletion loop of
`projectRepository.delete`. -/
lemma foldl_results_filter (jobIds : List String) (results : List DockingResult)
    (dr : DockingResult) :
    dr ∈ jobIds.foldl (fun acc jobId => acc.filter (fun q => !(q.jobId == jobId))) results ↔
      dr ∈ results ∧ dr.jobId ∉ jobIds := by
  induction jobIds generalizing results with
  | nil => simp
  | cons j t ih =>
    rw [List.foldl_cons, ih]
    simp only [List.mem_filter, List.mem_cons, Bool.not_eq_true', beq_eq_false_iff_ne,
      ne_eq]
    constructor
    · rintro ⟨⟨h1, h2⟩, h3⟩
      exact ⟨h1, by simp [h2, h3]⟩
    · rintro ⟨h1, h2⟩
      push_neg at h2
      exact ⟨⟨h1, h2.1⟩, h2.2⟩

/-- Claim C10: `projectRepository.delete` removes the project row, every
receptor, ligand and docking job of the project, and every docking result
whose job belonged to the project, and leaves every other row in every
table untouched. -/
theorem claim_C10_cascading_delete (s : SimDB) (id : String) :
    (∀ p, p ∈ (projectDelete s id).projects ↔ p ∈ s.projects ∧ p.id ≠ id) ∧
    (∀ r, r ∈ (projectDelete s id).receptors ↔ r ∈ s.receptors ∧ r.projectId ≠ id) ∧
    (∀ l, l ∈ (projectDelete s id).ligands ↔ l ∈ s.ligands ∧ l.projectId ≠ id) ∧
    (∀ j, j ∈ (projectDelete s id).dockingJobs ↔ j ∈ s.dockingJobs ∧ j.projectId ≠ id) ∧
    (∀ dr, dr ∈ (projectDelete s id).dockingResults ↔
      dr ∈ s.dockingResults ∧
        dr.jobId ∉ (s.dockingJobs.filter (fun j => j.projectId == id)).map DockingJob.id) := by
  refine ⟨?_, ?_, ?_, ?_, ?_⟩ <;> intro x
  · simp [projectDelete, List.mem_filter]
  · simp [projectDelete, List.mem_filter]
  · simp [projectDelete, List.mem_filter]
  · simp [projectDelete, List.mem_filter]
  · exact foldl_results_filter _ _ _

/-- Witness data for C10: one project with a job, a result, and unrelated
rows from another project. -/
def c10State : SimDB :=
  { projects := [{ id := "p1", name := "a", description := none },
                 { id := "p2", name := "b", description := none }]
    receptors := [{ id := "r1", projectId := "p1", name := "rec", pdbId := none,
                    version := 1, parentVersionId := none, pdbqtContent := "",
                    gridbox := none }]
    ligands := []
    dockingJobs := [{ id := "j1", projectId := "p1", receptorId := "r1",
                      receptorVersionId := "r1", status := JobStatus.pending }]
    dockingResults := [{ id := "d1", jobId := "j1", ligandId := "l1", pose := 1,
                         score := -7, rmsd := 0, pdbqtContent := "" }] }

/-- Witness for C10 on the concrete store: the unrelated project `p2`
survives the cascading delete of `p1`. -/
theorem claim_C10_cascading_delete_witness :
    ({ id := "p2", name := "b", description := none } : Project)
      ∈ (projectDelete c10State "p1").projects ↔
    ({ id := "p2", name := "b", description := none } : Project) ∈ c10State.projects ∧
      ("p2" : String) ≠ "p1" :=
  (claim_C10_cascading_delete c10State "p1").1 { id := "p2", name := "b", description := none }

/-! ## Claim C3: association-list lemmas and the grouping invariant -/

lemma mapGet_none_iff {α β : Type} [DecidableEq α] (l : List (α × β)) (k : α) :
    mapGet l k = none ↔ ∀ p ∈ l, p.1 ≠ k := by
  induction l with
  | nil => simp [mapGet]
  | cons p t ih =>
    simp only [mapGet]
    by_cases h : p.1 = k
    · rw [if_pos h]
      simp only [List.mem_cons]
      constructor
      · intro hnone; cases hnone
      · intro hall; exact absurd h (hall p (Or.inl rfl))
    · rw [if_neg h, ih]
      simp only [List.mem_cons]
      constructor
      · intro hall q hq
        rcases hq with rfl | hq
        · exact h
        · exact hall q hq
      · intro hall q hq
        exact hall q (Or.inr hq)

lemma mapGet_mem {α β : Type} [DecidableEq α] {l : List (α × β)} {k : α} {v : β}
    (h : mapGet l k = some v) : (k, v) ∈ l := by
  induction l with
  | nil => cases h
  | cons p t ih =>
    obtain ⟨p1, p2⟩ := p
    simp only [mapGet] at h
    by_cases hpk : p1 = k
    · subst hpk
      rw [if_pos rfl] at h
      injection h with h
      subst h
      exact List.mem_cons_self _ _
    · rw [if_neg hpk] at h
      exact List.mem_cons_of_mem _ (ih h)

lemma mapSet_absent {α β : Type} [DecidableEq α] {l : List (α × β)} {k : α} (v : β)
    (h : mapGet l k = none) : mapSet l k v = l ++ [(k, v)] := by
  induction l with
  | nil => rfl
  | cons p t ih =>
    simp only [mapGet] at h
    by_cases hpk : p.1 = k
    · rw [if_pos hpk] at h; cases h
    · rw [if_neg hpk] at h
      simp only [mapSet, if_neg hpk, List.cons_append]
      rw [ih h]

lemma mapSet_keys_present {α β : Type} [DecidableEq α] {l : List (α × β)} {k : α} {w : β}
    (v : β) (h : mapGet l k = some w) :
    (mapSet l k v).map Prod.fst = l.map Prod.fst := by
  induction l with
  | nil => cases h
  | cons p t ih =>
    simp only [mapGet] at h
    by_cases hpk : p.1 = k
    · simp only [mapSet, if_pos hpk, List.map_cons]
      rw [hpk]
    · rw [if_neg hpk] at h
      simp only [mapSet, if_neg hpk, List.map_cons, ih h]

lemma mapSet_self_mem {α β : Type} [DecidableEq α] (l : List (α × β)) (k : α) (v : β) :
    (k, v) ∈ mapSet l k v := by
  induction l with
  | nil => exact List.mem_singleton.mpr rfl
  | cons p t ih =>
    simp only [mapSet]
    by_cases hpk : p.1 = k
    · rw [if_pos hpk]; exact List.mem_cons_self _ _
    · rw [if_neg hpk]; exact List.mem_cons_of_mem _ ih

lemma mapSet_mem {α β : Type} [DecidableEq α] {l : List (α × β)}
    (hn : (l.map Prod.fst).Nodup) {k : α} {v : β} {p : α × β} (hp : p ∈ mapSet l k v) :
    p = (k, v) ∨ (p ∈ l ∧ p.1 ≠ k) := by
  induction l with
  | nil => exact Or.inl (List.mem_singleton.mp hp)
  | cons q t ih =>
    simp only [mapSet] at hp
    simp only [List.map_cons, List.nodup_cons] at hn
    obtain ⟨hq, hnt⟩ := hn
    by_cases hqk : q.1 = k
    · rw [if_pos hqk] at hp
      rcases List.mem_cons.mp hp with rfl | hpt
      · exact Or.inl rfl
      · refine Or.inr ⟨List.mem_cons_of_mem _ hpt, ?_⟩
        intro hpk
        exact hq (List.mem_map.mpr ⟨p, hpt, hpk.trans hqk.symm⟩)
    · rw [if_neg hqk] at hp
      rcases List.mem_cons.mp hp with rfl | hpt
      · exact Or.inr ⟨List.mem_cons_self _ _, hqk⟩
      · rcases ih hnt hpt with h | ⟨h1, h2⟩
        · exact Or.inl h
        · exact Or.inr ⟨List.mem_cons_of_mem _ h1, h2⟩

lemma mapSet_mem_of_ne {α β : Type} [DecidableEq α] {l : List (α × β)} {p : α × β}
    (hp : p ∈ l) {k : α} (hne : p.1 ≠ k) (v : β) : p ∈ mapSet l k v := by
  induction l with
  | nil => cases hp
  | cons q t ih =>
    simp only [mapSet]
    by_cases hqk : q.1 = k
    · rw [if_pos hqk]
      rcases List.mem_cons.mp hp with rfl | hpt
      · exact absurd hqk hne
      · exact List.mem_cons_of_mem _ hpt
    · rw [if_neg hqk]
      rcases List.mem_cons.mp hp with rfl | hpt
      · exact List.mem_cons_self _ _
      · exact List.mem_cons_of_mem _ (ih hpt)

lemma mapGet_unique {α β : Type} [DecidableEq α] {l : List (α × β)}
    (hn : (l.map Prod.fst).Nodup) {p : α × β} (hp : p ∈ l) :
    mapGet l p.1 = some p.2 := by
  induction l with
  | nil => cases hp
  | cons q t ih =>
    simp only [List.map_cons, List.nodup_cons] at hn
    obtain ⟨hq, hnt⟩ := hn
    rcases List.mem_cons.mp hp with rfl | hpt
    · simp [mapGet]
    · simp only [mapGet]
      by_cases hqp : q.1 = p.1
      · exact absurd (List.mem_map.mpr ⟨p, hpt, hqp.symm⟩) hq
      · rw [if_neg hqp]
        exact ih hnt hpt

/-- Loop invariant of the `latestByName` grouping in `getByProject`: the
accumulator's keys are distinct; each entry holds a receptor already seen,
named by its key, with the maximal version among seen receptors of that
name; and every seen receptor's name has an entry. -/
def LatestInv (seen : List Receptor) (acc : List (String × Receptor)) : Prop :=
  (acc.map Prod.fst).Nodup ∧
  (∀ p ∈ acc, p.2.name = p.1 ∧ p.2 ∈ seen ∧
    ∀ r ∈ seen, r.name = p.1 → r.version ≤ p.2.version) ∧
  (∀ r ∈ seen, ∃ p ∈ acc, p.1 = r.name)

lemma latestInv_step {seen : List Receptor} {acc : List (String × Receptor)}
    (h : LatestInv seen acc) (x : Receptor) :
    LatestInv (seen ++ [x]) (latestByNameStep acc x) := by
  obtain ⟨hnd, hent, hcov⟩ := h
  cases hg : mapGet acc x.name with
  | none =>
    simp only [latestByNameStep, hg]
    rw [mapSet_absent x hg]
    have hab : ∀ p ∈ acc, p.1 ≠ x.name := (mapGet_none_iff acc x.name).mp hg
    refine ⟨?_, ?_, ?_⟩
    · rw [List.map_append]
      refine List.Nodup.append hnd (List.nodup_singleton _) ?_
      intro a ha hb
      obtain ⟨p, hp, hpa⟩ := List.mem_map.mp ha
      have : a = x.name := by simpa using hb
      exact hab p hp (hpa.trans this)
    · intro p hp
      rcases List.mem_append.mp hp with hp | hp
      · obtain ⟨h1, h2, h3⟩ := hent p hp
        refine ⟨h1, List.mem_append_left _ h2, ?_⟩
        intro r hr hrn
        rcases List.mem_append.mp hr with hr | hr
        · exact h3 r hr hrn
        · have hx : r = x := List.mem_singleton.mp hr
          rw [hx] at hrn
          exact absurd hrn.symm (hab p hp)
      · have hp' : p = (x.name, x) := List.mem_singleton.mp hp
        subst hp'
        refine ⟨rfl, List.mem_append_right _ (List.mem_singleton.mpr rfl), ?_⟩
        intro r hr hrn
        rcases List.mem_append.mp hr with hr | hr
        · obtain ⟨q, hq, hqn⟩ := hcov r hr
          exact absurd (hqn.trans hrn) (hab q hq)
        · have hx : r = x := List.mem_singleton.mp hr
          rw [hx]
    · intro r hr
      rcases List.mem_append.mp hr with hr | hr
      · obtain ⟨p, hp, he⟩ := hcov r hr
        exact ⟨p, List.mem_append_left _ hp, he⟩
      · refine ⟨(x.name, x), List.mem_append_right _ (List.mem_singleton.mpr rfl), ?_⟩
        rw [List.mem_singleton.mp hr]
  | some e =>
    have hem : (x.name, e) ∈ acc := mapGet_mem hg
    simp only [latestByNameStep, hg]
    by_cases hv : e.version < x.version
    · rw [if_pos hv]
      refine ⟨?_, ?_, ?_⟩
      · rw [mapSet_keys_present x hg]
        exact hnd
      · intro p hp
        rcases mapSet_mem hnd hp with rfl | ⟨hpacc, hpk⟩
        · refine ⟨rfl, List.mem_append_right _ (List.mem_singleton.mpr rfl), ?_⟩
          intro r hr hrn
          rcases List.mem_append.mp hr with hr | hr
          · exact le_trans ((hent (x.name, e) hem).2.2 r hr hrn) (le_of_lt hv)
          · rw [List.mem_singleton.mp hr]
        · obtain ⟨h1, h2, h3⟩ := hent p hpacc
          refine ⟨h1, List.mem_append_left _ h2, ?_⟩
          intro r hr hrn
          rcases List.mem_append.mp hr with hr | hr
          · exact h3 r hr hrn
          · have hx : r = x := List.mem_singleton.mp hr
            rw [hx] at hrn
            exact absurd hrn.symm hpk
      · intro r hr
        rcases List.mem_append.mp hr with hr | hr
        · obtain ⟨p, hp, he2⟩ := hcov r hr
          by_cases hpx : p.1 = x.name
          · exact ⟨(x.name, x), mapSet_self_mem acc x.name x, hpx.symm.trans he2⟩
          · exact ⟨p, mapSet_mem_of_ne hp hpx x, he2⟩
        · refine ⟨(x.name, x), mapSet_self_mem acc x.name x, ?_⟩
          rw [List.mem_singleton.mp hr]
    · rw [if_neg hv]
      refine ⟨hnd, ?_, ?_⟩
      · intro p hp
        obtain ⟨h1, h2, h3⟩ := hent p hp
        refine ⟨h1, List.mem_append_left _ h2, ?_⟩
        intro r hr hrn
        rcases List.mem_append.mp hr with hr | hr
        · exact h3 r hr hrn
        · have hx : r = x := List.mem_singleton.mp hr
          rw [hx] at hrn
          have hu : mapGet acc p.1 = some p.2 := mapGet_unique hnd hp
          rw [← hrn] at hu
          rw [hg] at hu
          injection hu with hu
          rw [hx, ← hu]
          exact le_of_not_lt hv
      · intro r hr
        rcases List.mem_append.mp hr with hr | hr
        · exact hcov r hr
        · refine ⟨(x.name, e), hem, ?_⟩
          rw [List.mem_singleton.mp hr]

lemma latestInv_foldl (l : List Receptor) : ∀ (seen : List Receptor)
    (acc : List (String × Receptor)), LatestInv seen acc →
    LatestInv (seen ++ l) (l.foldl latestByNameStep acc) := by
  induction l with
  | nil =>
    intro seen acc h
    simpa using h
  | cons x t ih =>
    intro seen acc h
    have h2 := ih (seen ++ [x]) (latestByNameStep acc x) (latestInv_step h x)
    simpa [List.append_assoc] using h2

/-- Specification of the `Array.reduce` picking the strictly larger
version in `getLatestReceptorVersion`. -/
lemma foldl_pick_spec (vs : List Receptor) (v : Receptor) :
    (vs.foldl (fun latest current =>
        if latest.version < current.version then current else latest) v = v ∨
      vs.foldl (fun latest current =>
        if latest.version < current.version then current else latest) v ∈ vs) ∧
    v.version ≤ (vs.foldl (fun latest current =>
        if latest.version < current.version then current else latest) v).version ∧
    ∀ w ∈ vs, w.version ≤ (vs.foldl (fun latest current =>
        if latest.version < current.version then current else latest) v).version := by
  induction vs generalizing v with
  | nil =>
    refine ⟨Or.inl rfl, le_refl _, ?_⟩
    intro w hw
    cases hw
  | cons w t ih =>
    obtain ⟨ih1, ih2, ih3⟩ := ih (if v.version < w.version then w else v)
    rw [List.foldl_cons]
    refine ⟨?_, ?_, ?_⟩
    · rcases ih1 with h | h
      · rw [h]
        by_cases hv : v.version < w.version
        · rw [if_pos hv]
          exact Or.inr (List.mem_cons_self _ _)
        · rw [if_neg hv]
          exact Or.inl rfl
      · exact Or.inr (List.mem_cons_of_mem _ h)
    · refine le_trans ?_ ih2
      by_cases hv : v.version < w.version
      · rw [if_pos hv]
        exact le_of_lt hv
      · rw [if_neg hv]
    · intro u hu
      rcases List.mem_cons.mp hu with rfl | hut
      · refine le_trans ?_ ih2
        by_cases hv : v.version < u.version
        · rw [if_pos hv]
        · rw [if_neg hv]
          exact le_of_not_lt hv
      · exact ih3 u hut

/-- Claim C3: `getLatestReceptorVersion` returns a stored version with the
maximum version number among receptors with that project and name (and
`none` exactly when there are none), and `getByProject` returns exactly one
receptor per distinct name of the project, one carrying that name's highest
version number. -/
theorem claim_C3_latest_version (s : SimDB) (projectId rname : String) :
    (∀ r, getLatestReceptorVersion s projectId rname = some r →
      r ∈ versionsOf s projectId rname ∧
      ∀ v ∈ versionsOf s projectId rname, v.version ≤ r.version) ∧
    (getLatestReceptorVersion s projectId rname = none ↔
      versionsOf s projectId rname = []) ∧
    ((getByProject s projectId).map Receptor.name).Nodup ∧
    (∀ r ∈ getByProject s projectId,
      r ∈ s.receptors.filter (fun q => q.projectId == projectId) ∧
      ∀ q ∈ s.receptors.filter (fun q => q.projectId == projectId),
        q.name = r.name → q.version ≤ r.version) ∧
    (∀ q ∈ s.receptors.filter (fun q => q.projectId == projectId),
      ∃ r ∈ getByProject s projectId, r.name = q.name) := by
  have h0 : LatestInv [] [] := by
    refine ⟨List.nodup_nil, ?_, ?_⟩
    · intro p hp
      cases hp
    · intro r hr
      cases hr
  have hInv : LatestInv (s.receptors.filter (fun r => r.projectId == projectId))
      ((s.receptors.filter (fun r => r.projectId == projectId)).foldl latestByNameStep []) := by
    simpa using latestInv_foldl (s.receptors.filter (fun r => r.projectId == projectId)) [] [] h0
  obtain ⟨hnd, hent, hcov⟩ := hInv
  refine ⟨?_, ?_, ?_, ?_, ?_⟩
  · intro r hr
    unfold getLatestReceptorVersion at hr
    cases hv : versionsOf s projectId rname with
    | nil =>
      rw [hv] at hr
      cases hr
    | cons v vs =>
      rw [hv] at hr
      injection hr with hr
      obtain ⟨h1, h2, h3⟩ := foldl_pick_spec vs v
      subst hr
      constructor
      · rcases h1 with h | h
        · rw [h]
          exact List.mem_cons_self _ _
        · exact List.mem_cons_of_mem _ h
      · intro w hw
        rcases List.mem_cons.mp hw with rfl | hw
        · exact h2
        · exact h3 w hw
  · unfold getLatestReceptorVersion
    cases hv : versionsOf s projectId rname with
    | nil => simp
    | cons v vs => simp
  · unfold getByProject
    rw [List.map_map]
    have hmc : ((s.receptors.filter (fun r => r.projectId == projectId)).foldl
          latestByNameStep []).map (Receptor.name ∘ Prod.snd)
        = ((s.receptors.filter (fun r => r.projectId == projectId)).foldl
          latestByNameStep []).map Prod.fst :=
      List.map_congr_left (fun p hp => (hent p hp).1)
    rw [hmc]
    exact hnd
  · intro r hr
    unfold getByProject at hr
    rcases List.mem_map.mp hr with ⟨p, hp, rfl⟩
    obtain ⟨h1, h2, h3⟩ := hent p hp
    exact ⟨h2, fun q hq hqname => h3 q hq (by rw [hqname, h1])⟩
  · intro q hq
    obtain ⟨p, hp, hpk⟩ := hcov q hq
    refine ⟨p.2, List.mem_map.mpr ⟨p, hp, rfl⟩, ?_⟩
    rw [(hent p hp).1, hpk]

/-- Witness store for C3: two versions of one receptor name. -/
def c3State : SimDB :=
  { projects := [], ligands := [], dockingJobs := [], dockingResults := []
    receptors := [{ id := "r1", projectId := "p", name := "rec", pdbId := none,
                    version := 1, parentVersionId := none, pdbqtContent := "",
                    gridbox := none },
                  { id := "r2", projectId := "p", name := "rec", pdbId := none,
                    version := 2, parentVersionId := some "r1", pdbqtContent := "",
                    gridbox := none }] }

/-- The version-2 receptor stored in `c3State`. -/
def c3Latest : Receptor :=
  { id := "r2", projectId := "p", name := "rec", pdbId := none, version := 2,
    parentVersionId := some "r1", pdbqtContent := "", gridbox := none }

/-- Witness for C3 on the concrete two-version store. -/
theorem claim_C3_latest_version_witness :
    c3Latest ∈ versionsOf c3State "p" "rec" ∧
    ∀ v ∈ versionsOf c3State "p" "rec", v.version ≤ c3Latest.version :=
  (claim_C3_latest_version c3State "p" "rec").1 c3Latest (by rfl)

/-! ## pdbqtConverter.ts -/

/-- JS `String.prototype.includes`: contiguous substring test. -/
def jsIncludes (pat l : JStr) : Bool :=
  decide (pat <:+: l)

/-- `toFixed(3)` on a (finite) number: three digits after the decimal
point, rounding half away from zero, keeping the sign of negative inputs. -/
def toFixed3Rat (q : ℚ) : JStr :=
  let n : ℕ := (⌊|q| * 1000 + 1 / 2⌋).toNat
  let ds := padZeros (natToChars n) 4
  (if q < 0 then ['-'] else []) ++ ds.take (ds.length - 3) ++ '.' :: ds.drop (ds.length - 3)

/-- `toFixed(3)` on a possibly-NaN number. -/
def toFixed3 (o : Option ℚ) : JStr :=
  match o with
  | none => "NaN".data
  | some q => toFixed3Rat q

/-- A parsed atom (`interface Atom`); `x`, `y`, `z` can be NaN. -/
structure Atom where
  serial : ℤ
  name : JStr
  resName : JStr
  chainId : JStr
  resSeq : ℤ
  x : Option ℚ
  y : Option ℚ
  z : Option ℚ
  element : JStr
  charge : ℚ
  atomType : JStr
deriving DecidableEq

/-- `AUTODOCK_ATOM_TYPES`. -/
def autodockAtomTypes : List (JStr × JStr) :=
  [("C".data, "C".data), ("A".data, "A".data), ("N".data, "N".data),
   ("NA".data, "NA".data), ("NS".data, "NS".data), ("O".data, "O".data),
   ("OA".data, "OA".data), ("F".data, "F".data), ("P".data, "P".data),
   ("S".data, "S".data), ("SA".data, "SA".data), ("CL".data, "Cl".data),
   ("BR".data, "Br".data), ("I".data, "I".data), ("H".data, "H".data),
   ("HD".data, "HD".data)]

/-- `DEFAULT_CHARGES`. -/
def defaultCharges : List (JStr × ℚ) :=
  [("C".data, 0), ("CA".data, -0.0178), ("CB".data, -0.0312), ("N".data, -0.3479),
   ("O".data, -0.5679), ("OXT".data, -0.8014), ("H".data, 0.1984), ("HA".data, 0.0688),
   ("HN".data, 0.2719), ("DEFAULT".data, 0)]

/-- The aromatic side-chain atom names checked for carbons. -/
def aromaticAtoms : List JStr :=
  ["CG".data, "CD1".data, "CD2".data, "CE1".data, "CE2".data, "CZ".data,
   "CE3".data, "CZ2".data, "CZ3".data, "CH2".data]

/-- `getAutoDockAtomType` (pdbqtConverter.ts, lines 62-126). -/
def getAutoDockAtomType (element atomName resName : JStr) : JStr :=
  let el := jsTrim (jsToUpper element)
  let nm := jsTrim (jsToUpper atomName)
  if el = "H".data then
    if "H".data.isPrefixOf nm ∧ (jsIncludes "N".data nm ∨ jsIncludes "O".data nm ∨
        nm = "HN".data ∨ nm = "HO".data) then "HD".data
    else if nm ∈ ["HN".data, "HG".data, "HH".data, "HE".data, "HZ".data, "HG1".data,
        "HE2".data, "HD1".data, "HD2".data] then "HD".data
    else "H".data
  else if el = "O".data then "OA".data
  else if el = "N".data then
    if resName = "HIS".data ∧ nm ∈ ["ND1".data, "NE2".data] then "NA".data
    else if nm = "N".data then "N".data
    else if nm ∈ ["NZ".data, "NH1".data, "NH2".data, "NE".data] then "N".data
    else "NA".data
  else if el = "S".data then
    if resName = "MET".data ∨ nm = "SD".data then "SA".data else "S".data
  else if el = "C".data then
    if resName ∈ ["PHE".data, "TYR".data, "TRP".data, "HIS".data] ∧
        aromaticAtoms.any (fun a => a.isPrefixOf nm) then "A".data
    else "C".data
  else if el = "CL".data then "Cl".data
  else if el = "BR".data then "Br".data
  else
    match mapGet autodockAtomTypes el with
    | some t => t
    | none => el

/-- `estimateCharge` (pdbqtConverter.ts, lines 131-149); the residue name
parameter is unused by the source as well. -/
def estimateCharge (atomName _resName element : JStr) : ℚ :=
  let nm := jsTrim (jsToUpper atomName)
  match mapGet defaultCharges nm with
  | some c => c
  | none =>
    let e := jsToUpper element
    if e = "C".data then 0
    else if e = "N".data then -0.35
    else if e = "O".data then -0.5
    else if e = "S".data then -0.12
    else if e = "H".data then 0.15
    else if e = "P".data then 0.4
    else 0

/-- The element-symbol extraction of `parsePDB`: columns 77-78 when the
line is long enough, otherwise the first non-digit character of the atom
name, falling back to carbon. -/
def pdbElementOf (line atomName : JStr) : JStr :=
  let element0 := if 78 ≤ line.length then jsTrim (jsSubstring line 76 78) else []
  if element0 = [] then
    (let e := (atomName.filter (fun c => !(c.isDigit))).take 1
     if e = [] then "C".data else e)
  else element0

/-- Parse of one ATOM/HETATM line in `parsePDB`; `idx` is the number of
atoms already extracted (for the `|| atoms.length + 1` serial fallback).
The `try/catch` of the source is dead (substring and the parsers do not
throw), so every ATOM/HETATM line yields an atom. -/
def parsePDBLine (line : JStr) (idx : Nat) : Atom :=
  let atomName := jsTrim (jsSubstring line 12 16)
  let resName := jsTrim (jsSubstring line 17 20)
  let element := pdbElementOf line atomName
  { serial := jsOrInt (parseIntJS (jsTrim (jsSubstring line 6 11))) ((idx : ℤ) + 1)
    name := atomName
    resName := resName
    chainId := jsOrStr (jsTrim (jsSubstring line 21 22)) "A".data
    resSeq := jsOrInt (parseIntJS (jsTrim (jsSubstring line 22 26))) 1
    x := parseFloatJS (jsTrim (jsSubstring line 30 38))
    y := parseFloatJS (jsTrim (jsSubstring line 38 46))
    z := parseFloatJS (jsTrim (jsSubstring line 46 54))
    element := element
    charge := estimateCharge atomName resName element
    atomType := getAutoDockAtomType element atomName resName }

/-- `parsePDB` (pdbqtConverter.ts, lines 154-201). -/
def parsePDB (content : JStr) : List Atom :=
  (splitNL content).foldl (fun acc line =>
    if "ATOM".data.isPrefixOf line ∨ "HETATM".data.isPrefixOf line then
      acc ++ [parsePDBLine line acc.length]
    else acc) []

/-- Parse of the `i`-th atom-block line in `parseSDF` (V2000 fixed
columns; the atom name is the element followed by the 1-based index). -/
def parseSDFAtom (line : JStr) (i : Nat) : Atom :=
  let element := jsTrim (jsSubstring line 31 34)
  let atomName := element ++ natToChars (i + 1)
  { serial := (i : ℤ) + 1
    name := atomName
    resName := "LIG".data
    chainId := "A".data
    resSeq := 1
    x := parseFloatJS (jsTrim (jsSubstring line 0 10))
    y := parseFloatJS (jsTrim (jsSubstring line 10 20))
    z := parseFloatJS (jsTrim (jsSubstring line 20 30))
    element := element
    charge := estimateCharge atomName "LIG".data element
    atomType := getAutoDockAtomType element atomName "LIG".data }

/-- The atom-block collection of `parseSDF`, given the counts-line index
`ci`: read the atom count from the counts line's first three columns, then
parse that many following lines (skipping missing or empty ones). -/
def sdfAtomsFrom (lines : List JStr) (ci : Nat) : List Atom :=
  let natAtoms := match parseIntJS (jsTrim (jsSubstring (lines.getD ci []) 0 3)) with
    | some n => n.toNat
    | none => 0
  (List.range natAtoms).filterMap (fun i =>
    match lines.get? (ci + 1 + i) with
    | none => none
    | some atomLine =>
      if atomLine = [] then none else some (parseSDFAtom atomLine i))

/-- `parseSDF` (pdbqtConverter.ts, lines 206-256): find the counts line
from line index 3 onwards, then collect the atom block. -/
def parseSDF (content : JStr) : Except JStr (List Atom) :=
  match ((splitNL content).drop 3).findIdx? countsLineMatch with
  | none => .error "Could not find counts line in SDF file".data
  | some j => .ok (sdfAtomsFrom (splitNL content) (3 + j))

/-- The fixed occupancy field of `formatPDBQTLine`. -/
def occupancyField : JStr := "  1.00".data

/-- The fixed temperature-factor field of `formatPDBQTLine`. -/
def tempFactorField : JStr := "  0.00".data

/-- `formatPDBQTLine` (pdbqtConverter.ts, lines 261-281). -/
def formatPDBQTLine (atom : Atom) : JStr :=
  let recordType := if atom.resName = "LIG".data then "HETATM".data else "ATOM  ".data
  let serial := padStart (intToChars atom.serial) 5
  let nm := if atom.name.length ≤ 3 then padEnd (' ' :: atom.name) 4 else padEnd atom.name 4
  let resName := padEnd atom.resName 3
  let chainId := jsOrStr atom.chainId [' ']
  let resSeq := padStart (intToChars atom.resSeq) 4
  let x := padStart (toFixed3 atom.x) 8
  let y := padStart (toFixed3 atom.y) 8
  let z := padStart (toFixed3 atom.z) 8
  let charge := padStart (toFixed3Rat atom.charge) 8
  let atomType := padStart atom.atomType 2
  recordType ++ serial ++ [' '] ++ nm ++ [' '] ++ resName ++ [' '] ++ chainId ++ resSeq
    ++ "    ".data ++ x ++ y ++ z ++ occupancyField ++ tempFactorField ++ "    ".data
    ++ charge ++ [' '] ++ atomType

/-- The atom-lines body of `convertPDBtoPDBQT`, with a `TER` record
inserted whenever the chain id changes (the initial `lastChain` is the
empty, falsy, string). -/
def pdbBodyAux : JStr → List Atom → List JStr
  | _, [] => []
  | lastChain, a :: rest =>
    (if ¬ lastChain = [] ∧ ¬ a.chainId = lastChain then ["TER".data] else [])
      ++ formatPDBQTLine a :: pdbBodyAux a.chainId rest

/-- The output lines of `convertPDBtoPDBQT`. -/
def pdbOutLines (atoms : List Atom) : List JStr :=
  "REMARK  Converted to PDBQT by SimDock Pro".data
    :: "REMARK  Charges are estimated (not actual Gasteiger charges)".data
    :: (pdbBodyAux [] atoms ++ ["TER".data, "END".data])

/-- `convertPDBtoPDBQT` (pdbqtConverter.ts, lines 286-318). -/
def convertPDBtoPDBQT (content : JStr) : Except JStr JStr :=
  let atoms := parsePDB content
  if atoms = [] then .error "No atoms found in PDB file".data
  else .ok (joinNL (pdbOutLines atoms))

/-- The output lines of `convertSDFtoPDBQT`. -/
def sdfOutLines (atoms : List Atom) : List JStr :=
  "REMARK  Converted to PDBQT by SimDock Pro".data
    :: "REMARK  SMILES: (not available)".data
    :: "REMARK  Charges are estimated (not actual Gasteiger charges)".data
    :: "ROOT".data
    :: (atoms.map formatPDBQTLine ++ ["ENDROOT".data, "TORSDOF 0".data])

/-- `convertSDFtoPDBQT` (pdbqtConverter.ts, lines 323-346). -/
def convertSDFtoPDBQT (content : JStr) : Except JStr JStr :=
  match parseSDF content with
  | .error e => .error e
  | .ok atoms =>
    if atoms = [] then .error "No atoms found in SDF file".data
    else .ok (joinNL (sdfOutLines atoms))

/-- The `format` parameter of `convertToPDBQT`. -/
inductive ReqFormat where
  | pdb
  | sdf
  | auto
deriving DecidableEq

/-- SDF auto-detection marker of `convertToPDBQT`. -/
def hasSDFMarker (content : JStr) : Bool :=
  jsIncludes "V2000".data content || jsIncludes "V3000".data content ||
    jsIncludes "$$$$".data content

/-- PDB auto-detection marker of `convertToPDBQT`. -/
def hasPDBMarker (content : JStr) : Bool :=
  jsIncludes "ATOM".data content || jsIncludes "HETATM".data content

/-- `convertToPDBQT` (pdbqtConverter.ts, lines 351-369). -/
def convertToPDBQT (content : JStr) (format : ReqFormat) : Except JStr JStr :=
  match format with
  | .pdb => convertPDBtoPDBQT content
  | .sdf => convertSDFtoPDBQT content
  | .auto =>
    if hasSDFMarker content then convertSDFtoPDBQT content
    else if hasPDBMarker content then convertPDBtoPDBQT content
    else .error "Could not determine file format".data

/-- `PDBQT_SPECIFIC_TYPES` in `isPDBQT`. -/
def pdbqtSpecificTypes : List JStr :=
  ["NA".data, "NS".data, "OA".data, "SA".data, "HD".data, "Cl".data, "Br".data]

/-- The charge-column regex `^-?\d+\.\d+$` of `isPDBQT`: an optional
minus sign, one or more digits, a point, and one or more digits up to the
end of the string. -/
def chargeRegexMatch (l : JStr) : Bool :=
  let l1 := if l.head? = some '-' then l.tail else l
  let r1 := l1.dropWhile Char.isDigit
  decide (¬ l1.takeWhile Char.isDigit = []) && decide (r1.head? = some '.') &&
    decide (¬ r1.tail = []) && r1.tail.all Char.isDigit

/-- The PDBQT ligand-keyword check of `isPDBQT`. -/
def isPDBQTLineKeyword (line : JStr) : Bool :=
  "ROOT".data.isPrefixOf line || "ENDROOT".data.isPrefixOf line ||
    "BRANCH".data.isPrefixOf line || "TORSDOF".data.isPrefixOf line

/-- ATOM/HETATM record check. -/
def isAtomLine (line : JStr) : Bool :=
  "ATOM".data.isPrefixOf line || "HETATM".data.isPrefixOf line

/-- Contribution of one atom line to `pdbqtSpecificAtomTypesFound`. -/
def specificTypeInc (line : JStr) : Nat :=
  if 79 ≤ line.length then
    if jsTrim (jsSubstring line 77 79) ∈ pdbqtSpecificTypes then 1 else 0
  else 0

/-- Contribution of one atom line to `validChargesFound` (a string
matching the regex always parses to a non-NaN float, so the inner
`isNaN` check of the source never rejects). -/
def validChargeInc (line : JStr) : Nat :=
  if 76 ≤ line.length then
    (if ¬ jsTrim (jsSubstring line 67 76) = [] ∧
        chargeRegexMatch (jsTrim (jsSubstring line 67 76)) then 1 else 0)
  else 0

/-- The scanning loop of `isPDBQT` with its three counters, followed by
the final thresholds (`valid > atomCount * 0.5` is `atomCount < 2 * valid`
on integers). -/
def isPDBQTAux : List JStr → Nat → Nat → Nat → Bool
  | [], atomCount, specific, valid =>
    if 0 < specific then true
    else if 0 < atomCount ∧ atomCount < 2 * valid then true
    else false
  | line :: rest, atomCount, specific, valid =>
    if isPDBQTLineKeyword line then true
    else if isAtomLine line then
      isPDBQTAux rest (atomCount + 1) (specific + specificTypeInc line)
        (valid + validChargeInc line)
    else isPDBQTAux rest atomCount specific valid

/-- `isPDBQT` (pdbqtConverter.ts, lines 377-430). -/
def isPDBQT (content : JStr) : Bool :=
  isPDBQTAux (splitNL content) 0 0 0

/-! ## dockingService.ts: parseVinaOutput -/

/-- `interface ParsedResult`; score and RMSD values can be NaN. -/
structure ParsedResult where
  pose : Nat
  score : Option ℚ
  rmsdLB : Option ℚ
  rmsdUB : Option ℚ
deriving DecidableEq

/-- A line producing a result in `parseVinaOutput`: contains the Vina
result marker and splits into at least five whitespace-separated fields. -/
def vinaResultLine (line : JStr) : Bool :=
  jsIncludes "REMARK VINA RESULT:".data line && decide (5 ≤ (splitWS line).length)

/-- The result record pushed for one matching line (`parts[5]` is falsy
both when missing and when it is the empty trailing field). -/
def mkVinaResult (pose : Nat) (line : JStr) : ParsedResult :=
  let parts := splitWS line
  { pose := pose
    score := parseFloatJS (parts.getD 3 [])
    rmsdLB := parseFloatJS (parts.getD 4 [])
    rmsdUB :=
      (let p5 := parts.getD 5 []
       if p5 = [] then some 0 else parseFloatJS p5) }

/-- One iteration of the `parseVinaOutput` loop. -/
def vinaStep (results : List ParsedResult) (line : JStr) : List ParsedResult :=
  if vinaResultLine line then results ++ [mkVinaResult (results.length + 1) line]
  else results

/-- `DockingService.parseVinaOutput` (dockingService.ts, lines 245-264). -/
def parseVinaOutput (content : JStr) : List ParsedResult :=
  (splitNL content).foldl vinaStep []

/-! ## Claims C7, C5 and C6 -/

/-- Claim C7: the conversion and gridbox utilities are stateless and
deterministic; each is embedded as a pure function of its arguments, so
two runs on the same input are definitionally equal and no state outside
the arguments can influence the result. -/
theorem claim_C7_stateless_deterministic :
    (∀ (content : JStr) (format : ReqFormat),
      convertToPDBQT content format = convertToPDBQT content format) ∧
    (∀ content : JStr, convertPDBtoPDBQT content = convertPDBtoPDBQT content) ∧
    (∀ content : JStr, convertSDFtoPDBQT content = convertSDFtoPDBQT content) ∧
    (∀ (content : JStr) (padding : ℚ),
      calculateGridboxFromPDBQT content padding = calculateGridboxFromPDBQT content padding) ∧
    (∀ (content : JStr) (padding : ℚ),
      calculateGridboxFromSDF content padding = calculateGridboxFromSDF content padding) ∧
    (∀ (content : JStr) (padding : ℚ),
      calculateGridboxFromBoundLigand content padding
        = calculateGridboxFromBoundLigand content padding) :=
  ⟨fun _ _ => rfl, fun _ => rfl, fun _ => rfl, fun _ _ => rfl, fun _ _ => rfl,
    fun _ _ => rfl⟩

/-- Claim C5: `convertToPDBQT` with `'auto'` deterministically routes by
the `V2000`/`V3000`/`$$$$` markers first (even when ATOM/HETATM also
occur), then by `ATOM`/`HETATM`, and otherwise fails with `'Could not
determine file format'`; the PDB path fails exactly when no atoms parse,
and the SDF path fails exactly when the counts line is missing or the
parsed atom list is empty. -/
theorem claim_C5_auto_detection (content : JStr) :
    convertToPDBQT content ReqFormat.auto =
      (if hasSDFMarker content then convertSDFtoPDBQT content
       else if hasPDBMarker content then convertPDBtoPDBQT content
       else .error "Could not determine file format".data) ∧
    ((convertPDBtoPDBQT content).isOk = true ↔ ¬ parsePDB content = []) ∧
    ((convertSDFtoPDBQT content).isOk = true ↔
      ∃ atoms, parseSDF content = .ok atoms ∧ ¬ atoms = []) ∧
    ((parseSDF content).isOk = false ↔
      ((splitNL content).drop 3).findIdx? countsLineMatch = none) := by
  refine ⟨rfl, ?_, ?_, ?_⟩
  · unfold convertPDBtoPDBQT
    by_cases h : parsePDB content = [] <;> simp [h, Except.isOk, Except.toBool]
  · cases hp : parseSDF content with
    | error e => simp [convertSDFtoPDBQT, hp, Except.isOk, Except.toBool]
    | ok atoms =>
      by_cases h : atoms = [] <;>
        simp [convertSDFtoPDBQT, hp, h, Except.isOk, Except.toBool]
  · unfold parseSDF
    cases hf : ((splitNL content).drop 3).findIdx? countsLineMatch with
    | none => simp [hf, Except.isOk, Except.toBool]
    | some j => simp [hf, Except.isOk, Except.toBool]

/-- Witness for C5: marker-free content is rejected with the exact error
message. -/
theorem claim_C5_auto_detection_witness :
    convertToPDBQT "xyz".data ReqFormat.auto
      = .error "Could not determine file format".data := by
  rw [(claim_C5_auto_detection "xyz".data).1]
  rfl

/-- Indexed builder equivalent to the `parseVinaOutput` accumulator loop:
`n` results have already been pushed. -/
def buildVinaResults : Nat → List JStr → List ParsedResult
  | _, [] => []
  | n, line :: rest =>
    if vinaResultLine line then mkVinaResult (n + 1) line :: buildVinaResults (n + 1) rest
    else buildVinaResults n rest

lemma foldl_vinaStep (l : List JStr) : ∀ acc : List ParsedResult,
    l.foldl vinaStep acc = acc ++ buildVinaResults acc.length l := by
  induction l with
  | nil =>
    intro acc
    simp [buildVinaResults]
  | cons line rest ih =>
    intro acc
    rw [List.foldl_cons]
    by_cases h : vinaResultLine line
    · simp only [vinaStep, if_pos h, buildVinaResults]
      rw [ih]
      simp [List.append_assoc]
    · simp only [vinaStep, if_neg h, buildVinaResults]
      rw [ih]

lemma buildVinaResults_length : ∀ (l : List JStr) (n : Nat),
    (buildVinaResults n l).length = (l.filter vinaResultLine).length := by
  intro l
  induction l with
  | nil => intro n; rfl
  | cons line rest ih =>
    intro n
    by_cases h : vinaResultLine line
    · simp [buildVinaResults, List.filter_cons, h, ih]
    · simp [buildVinaResults, List.filter_cons, h, ih]

lemma buildVinaResults_get? : ∀ (l : List JStr) (n k : Nat),
    (buildVinaResults n l).get? k
      = ((l.filter vinaResultLine).get? k).map (fun line => mkVinaResult (n + k + 1) line) := by
  intro l
  induction l with
  | nil => intro n k; simp [buildVinaResults]
  | cons line rest ih =>
    intro n k
    by_cases h : vinaResultLine line
    · cases k with
      | zero => simp [buildVinaResults, List.filter_cons, h]
      | succ k =>
        simp only [buildVinaResults, if_pos h, List.filter_cons, h, if_pos,
          List.get?_cons_succ]
        rw [ih (n + 1) k]
        have harg : n + 1 + k + 1 = n + (k + 1) + 1 := by omega
        rw [harg]
    · simp only [buildVinaResults, if_neg h, List.filter_cons, h]
      simp only [Bool.false_eq_true, if_false]
      exact ih n k

/-- Claim C6: `parseVinaOutput` yields one result per line containing
`'REMARK VINA RESULT:'` with at least five whitespace-separated fields, in
input order; pose numbers are `1, 2, ...` by position, the score is the
parsed fourth field and the RMSD bounds the parsed fifth and sixth fields
(`0` when the sixth is missing or empty). -/
theorem claim_C6_parse_vina (content : JStr) :
    (parseVinaOutput content).length
      = ((splitNL content).filter vinaResultLine).length ∧
    ∀ k : Nat, (parseVinaOutput content).get? k
      = (((splitNL content).filter vinaResultLine).get? k).map
          (fun line =>
            { pose := k + 1
              score := parseFloatJS ((splitWS line).getD 3 [])
              rmsdLB := parseFloatJS ((splitWS line).getD 4 [])
              rmsdUB :=
                (if (splitWS line).getD 5 [] = [] then some 0
                 else parseFloatJS ((splitWS line).getD 5 [])) }) := by
  have hfold := foldl_vinaStep (splitNL content) []
  constructor
  · unfold parseVinaOutput
    rw [hfold]
    simp [buildVinaResults_length]
  · intro k
    unfold parseVinaOutput
    rw [hfold]
    simp only [List.nil_append, List.length_nil]
    rw [buildVinaResults_get?]
    simp [mkVinaResult]

/-- Sample Vina output line for the C6 witness. -/
def c6Sample : JStr :=
  "REMARK VINA RESULT:    -7.5    0.000   0.000".data

/-- Witness for C6 at a concrete single-result output. -/
theorem claim_C6_parse_vina_witness :
    (parseVinaOutput c6Sample).length
      = ((splitNL c6Sample).filter vinaResultLine).length ∧
    (parseVinaOutput c6Sample).get? 0
      = (((splitNL c6Sample).filter vinaResultLine).get? 0).map
          (fun line =>
            { pose := 0 + 1
              score := parseFloatJS ((splitWS line).getD 3 [])
              rmsdLB := parseFloatJS ((splitWS line).getD 4 [])
              rmsdUB :=
                (if (splitWS line).getD 5 [] = [] then some 0
                 else parseFloatJS ((splitWS line).getD 5 [])) }) :=
  ⟨(claim_C6_parse_vina c6Sample).1, (claim_C6_parse_vina c6Sample).2 0⟩

/-! ## Newline-freedom of generated lines and the split/join round trip -/

lemma splitNLAux_no_newline : ∀ (s cur : JStr), '\n' ∉ cur →
    ∀ l ∈ splitNLAux s cur, '\n' ∉ l := by
  intro s
  induction s with
  | nil =>
    intro cur hcur l hl
    have hle : l = cur.reverse := by simpa [splitNLAux] using hl
    subst hle
    simpa [List.mem_reverse] using hcur
  | cons c rest ih =>
    intro cur hcur l hl
    by_cases hc : c = '\n'
    · simp only [splitNLAux, if_pos hc] at hl
      rcases List.mem_cons.mp hl with rfl | hl
      · simpa [List.mem_reverse] using hcur
      · exact ih [] (by simp) l hl
    · simp only [splitNLAux, if_neg hc] at hl
      refine ih (c :: cur) ?_ l hl
      intro hmem
      rcases List.mem_cons.mp hmem with h | h
      · exact hc h.symm
      · exact hcur h

lemma splitNL_no_newline (s : JStr) : ∀ l ∈ splitNL s, '\n' ∉ l :=
  splitNLAux_no_newline s [] (by simp)

lemma splitNLAux_of_no_newline : ∀ (l cur : JStr), '\n' ∉ l →
    splitNLAux l cur = [cur.reverse ++ l] := by
  intro l
  induction l with
  | nil =>
    intro cur _
    simp [splitNLAux]
  | cons c rest ih =>
    intro cur h
    have hc : ¬ c = '\n' := fun hc => h (List.mem_cons.mpr (Or.inl hc.symm))
    simp only [splitNLAux, if_neg hc]
    rw [ih (c :: cur) (fun hm => h (List.mem_cons_of_mem _ hm))]
    simp

lemma splitNLAux_break : ∀ (l cur s : JStr), '\n' ∉ l →
    splitNLAux (l ++ '\n' :: s) cur = (cur.reverse ++ l) :: splitNLAux s [] := by
  intro l
  induction l with
  | nil =>
    intro cur s _
    simp [splitNLAux]
  | cons c rest ih =>
    intro cur s h
    have hc : ¬ c = '\n' := fun hc => h (List.mem_cons.mpr (Or.inl hc.symm))
    show splitNLAux (c :: (rest ++ '\n' :: s)) cur
      = (cur.reverse ++ c :: rest) :: splitNLAux s []
    simp only [splitNLAux, if_neg hc]
    rw [ih (c :: cur) s (fun hm => h (List.mem_cons_of_mem _ hm))]
    simp

lemma splitNL_joinNL : ∀ ls : List JStr, ¬ ls = [] → (∀ l ∈ ls, '\n' ∉ l) →
    splitNL (joinNL ls) = ls := by
  intro ls
  induction ls with
  | nil => intro h _; exact absurd rfl h
  | cons a rest ih =>
    intro _ hall
    cases rest with
    | nil =>
      have := splitNLAux_of_no_newline a [] (hall a (List.mem_cons_self _ _))
      simpa [splitNL, joinNL] using this
    | cons b rest2 =>
      have hj : joinNL (a :: b :: rest2) = a ++ '\n' :: joinNL (b :: rest2) := rfl
      unfold splitNL
      rw [hj, splitNLAux_break a [] _ (hall a (List.mem_cons_self _ _))]
      simp only [List.reverse_nil, List.nil_append]
      congr 1
      exact ih (by simp) (fun l hl => hall l (List.mem_cons_of_mem _ hl))

lemma noNL_substring {l : JStr} (h : '\n' ∉ l) (a b : Nat) : '\n' ∉ jsSubstring l a b :=
  fun hm => h ((List.take_prefix b l).subset ((List.drop_suffix a (l.take b)).subset hm))

lemma noNL_trim {l : JStr} (h : '\n' ∉ l) : '\n' ∉ jsTrim l := by
  intro hm
  unfold jsTrim at hm
  rw [List.mem_reverse] at hm
  have hm2 := (List.dropWhile_suffix _).subset hm
  rw [List.mem_reverse] at hm2
  exact h ((List.dropWhile_suffix _).subset hm2)

lemma jsUpperChar_cases (c : Char) :
    jsUpperChar c = c ∨ jsUpperChar c ∈ "ABCDEFGHIJKLMNOPQRSTUVWXYZ".data := by
  unfold jsUpperChar
  split <;> first | (left; rfl) | (right; decide)

lemma noNL_upper {l : JStr} (h : '\n' ∉ l) : '\n' ∉ jsToUpper l := by
  intro hm
  rcases List.mem_map.mp hm with ⟨c, hc, he⟩
  rcases jsUpperChar_cases c with h1 | h1
  · rw [h1] at he
    exact h (he ▸ hc)
  · rw [he] at h1
    exact absurd h1 (by decide)

lemma noNL_append {l1 l2 : JStr} (h1 : '\n' ∉ l1) (h2 : '\n' ∉ l2) : '\n' ∉ l1 ++ l2 := by
  intro hm
  rcases List.mem_append.mp hm with h | h
  · exact h1 h
  · exact h2 h

lemma noNL_cons {c : Char} {l : JStr} (h1 : ¬ c = '\n') (h2 : '\n' ∉ l) :
    '\n' ∉ c :: l := fun hm => (List.mem_cons.mp hm).elim (fun h => h1 h.symm) h2

lemma noNL_replicate (n : Nat) {c : Char} (hc : ¬ c = '\n') : '\n' ∉ List.replicate n c :=
  fun hm => hc (List.eq_of_mem_replicate hm).symm

lemma noNL_padStart {l : JStr} (h : '\n' ∉ l) (n : Nat) : '\n' ∉ padStart l n :=
  noNL_append (noNL_replicate _ (by decide)) h

lemma noNL_padEnd {l : JStr} (h : '\n' ∉ l) (n : Nat) : '\n' ∉ padEnd l n :=
  noNL_append h (noNL_replicate _ (by decide))

lemma noNL_padZeros {l : JStr} (h : '\n' ∉ l) (n : Nat) : '\n' ∉ padZeros l n :=
  noNL_append (noNL_replicate _ (by decide)) h

lemma natToCharsAux_congr : ∀ (f n f' : Nat), n ≤ f → n ≤ f' →
    natToCharsAux n f = natToCharsAux n f' := by
  intro f
  induction f with
  | zero =>
    intro n f' h1 _
    have hn : n = 0 := by omega
    subst hn
    cases f' with
    | zero => rfl
    | succ g => rfl
  | succ g ih =>
    intro n f' h1 h2
    cases f' with
    | zero =>
      have hn : n = 0 := by omega
      subst hn
      rfl
    | succ g2 =>
      by_cases h10 : n < 10
      · simp only [natToCharsAux, if_pos h10]
      · simp only [natToCharsAux, if_neg h10]
        rw [ih (n / 10) g2 (by omega) (by omega)]

/-- The recursive unfolding of `natToChars`. -/
lemma natToChars_eq (n : Nat) :
    natToChars n = if n < 10 then [Char.ofNat (48 + n)]
      else natToChars (n / 10) ++ [Char.ofNat (48 + n % 10)] := by
  by_cases h10 : n < 10
  · rw [if_pos h10]
    cases n with
    | zero => rfl
    | succ m =>
      show natToCharsAux (m + 1) (m + 1) = _
      simp only [natToCharsAux, if_pos h10]
  · rw [if_neg h10]
    obtain ⟨m, rfl⟩ : ∃ m, n = m + 1 := ⟨n - 1, by omega⟩
    show natToCharsAux (m + 1) (m + 1)
      = natToCharsAux ((m + 1) / 10) ((m + 1) / 10) ++ [Char.ofNat (48 + (m + 1) % 10)]
    simp only [natToCharsAux, if_neg h10]
    rw [natToCharsAux_congr m ((m + 1) / 10) ((m + 1) / 10) (by omega) (by omega)]

lemma natToChars_digit (n : Nat) : ∀ c ∈ natToChars n, c.isDigit = true := by
  induction n using Nat.strong_induction_on with
  | _ n ih =>
    rw [natToChars_eq]
    split
    · intro c hc
      rename_i h
      have hce : c = Char.ofNat (48 + n) := by simpa using hc
      subst hce
      interval_cases n <;> decide
    · intro c hc
      rename_i h
      rcases List.mem_append.mp hc with hm | hm
      · exact ih (n / 10) (Nat.div_lt_self (by omega) (by omega)) c hm
      · have hce : c = Char.ofNat (48 + n % 10) := by simpa using hm
        subst hce
        have h10 : n % 10 < 10 := Nat.mod_lt _ (by omega)
        interval_cases hh : (n % 10) <;> decide

lemma natToChars_ne_nil (n : Nat) : ¬ natToChars n = [] := by
  rw [natToChars_eq]
  split <;> simp

lemma noNL_natToChars (n : Nat) : '\n' ∉ natToChars n := by
  intro hm
  exact absurd (natToChars_digit n _ hm) (by decide)

lemma noNL_intToChars (i : ℤ) : '\n' ∉ intToChars i := by
  unfold intToChars
  split
  · exact noNL_cons (by decide) (noNL_natToChars _)
  · exact noNL_natToChars _

lemma padZeros_length (l : JStr) (n : Nat) : (padZeros l n).length = n - l.length + l.length := by
  simp [padZeros]

/-- The shape of `toFixed(3)` output on a finite number: optional minus
sign, at least one integer digit, a point, exactly three fraction digits. -/
lemma toFixed3Rat_structure (q : ℚ) :
    ∃ sgn ip fp, toFixed3Rat q = sgn ++ ip ++ '.' :: fp ∧
      (sgn = [] ∨ sgn = ['-']) ∧ ¬ ip = [] ∧ (∀ c ∈ ip, c.isDigit = true) ∧
      fp.length = 3 ∧ (∀ c ∈ fp, c.isDigit = true) := by
  have hds : ∀ c ∈ padZeros (natToChars (⌊|q| * 1000 + 1 / 2⌋).toNat) 4, c.isDigit = true := by
    intro c hc
    rcases List.mem_append.mp hc with h | h
    · rw [List.eq_of_mem_replicate h]
      decide
    · exact natToChars_digit _ c h
  have hlen : 4 ≤ (padZeros (natToChars (⌊|q| * 1000 + 1 / 2⌋).toNat) 4).length := by
    rw [padZeros_length]
    have := natToChars_ne_nil (⌊|q| * 1000 + 1 / 2⌋).toNat
    have hpos : 0 < (natToChars (⌊|q| * 1000 + 1 / 2⌋).toNat).length :=
      List.length_pos.mpr this
    omega
  refine ⟨(if q < 0 then ['-'] else []),
    (padZeros (natToChars (⌊|q| * 1000 + 1 / 2⌋).toNat) 4).take
      ((padZeros (natToChars (⌊|q| * 1000 + 1 / 2⌋).toNat) 4).length - 3),
    (padZeros (natToChars (⌊|q| * 1000 + 1 / 2⌋).toNat) 4).drop
      ((padZeros (natToChars (⌊|q| * 1000 + 1 / 2⌋).toNat) 4).length - 3),
    ?_, ?_, ?_, ?_, ?_, ?_⟩
  · simp [toFixed3Rat, List.append_assoc]
  · by_cases hq : q < 0
    · exact Or.inr (by rw [if_pos hq])
    · exact Or.inl (by rw [if_neg hq])
  · intro he
    have := congrArg List.length he
    rw [List.length_take] at this
    simp only [List.length_nil] at this
    omega
  · intro c hc
    exact hds c ((List.take_prefix _ _).subset hc)
  · rw [List.length_drop]
    omega
  · intro c hc
    exact hds c ((List.drop_suffix _ _).subset hc)

lemma noNL_toFixed3Rat (q : ℚ) : '\n' ∉ toFixed3Rat q := by
  obtain ⟨sgn, ip, fp, he, hs, _, hip, _, hfp⟩ := toFixed3Rat_structure q
  rw [he]
  intro hm
  rcases List.mem_append.mp hm with h | h
  · rcases List.mem_append.mp h with h | h
    · rcases hs with rfl | rfl
      · cases h
      · exact absurd (List.mem_singleton.mp h) (by decide)
    · exact absurd (hip _ h) (by decide)
  · rcases List.mem_cons.mp h with h | h
    · exact absurd h (by decide)
    · exact absurd (hfp _ h) (by decide)

lemma noNL_toFixed3 (o : Option ℚ) : '\n' ∉ toFixed3 o := by
  cases o with
  | none => decide
  | some q => exact noNL_toFixed3Rat q

lemma getAutoDockAtomType_noNL {element atomName resName : JStr} (h : '\n' ∉ element) :
    '\n' ∉ getAutoDockAtomType element atomName resName := by
  have hel : '\n' ∉ jsTrim (jsToUpper element) := noNL_trim (noNL_upper h)
  simp only [getAutoDockAtomType]
  split_ifs <;> try decide
  cases hm : mapGet autodockAtomTypes (jsTrim (jsToUpper element)) with
  | none => simpa [hm] using hel
  | some t =>
    have hv : ∀ p ∈ autodockAtomTypes, '\n' ∉ p.2 := by decide
    simpa [hm] using hv _ (mapGet_mem hm)

lemma noNL_jsOrStr {l d : JStr} (h1 : '\n' ∉ l) (h2 : '\n' ∉ d) : '\n' ∉ jsOrStr l d := by
  unfold jsOrStr
  split
  · exact h2
  · exact h1

/-- `formatPDBQTLine`, written out as a flat concatenation (definitional
unfolding of the template literal). -/
lemma formatPDBQTLine_eq (a : Atom) :
    formatPDBQTLine a =
      (if a.resName = "LIG".data then "HETATM".data else "ATOM  ".data)
        ++ padStart (intToChars a.serial) 5 ++ [' ']
        ++ (if a.name.length ≤ 3 then padEnd (' ' :: a.name) 4 else padEnd a.name 4)
        ++ [' '] ++ padEnd a.resName 3 ++ [' '] ++ jsOrStr a.chainId [' ']
        ++ padStart (intToChars a.resSeq) 4 ++ "    ".data
        ++ padStart (toFixed3 a.x) 8 ++ padStart (toFixed3 a.y) 8
        ++ padStart (toFixed3 a.z) 8 ++ occupancyField ++ tempFactorField
        ++ "    ".data ++ padStart (toFixed3Rat a.charge) 8 ++ [' ']
        ++ padStart a.atomType 2 := rfl

/-- Lines produced by `formatPDBQTLine` contain no newline, provided the
atom's string fields do not. -/
lemma formatPDBQTLine_noNL {a : Atom} (hname : '\n' ∉ a.name) (hres : '\n' ∉ a.resName)
    (hchain : '\n' ∉ a.chainId) (htype : '\n' ∉ a.atomType) :
    '\n' ∉ formatPDBQTLine a := by
  have hrec : '\n' ∉ (if a.resName = "LIG".data then "HETATM".data else "ATOM  ".data) := by
    split <;> decide
  have hserial : '\n' ∉ padStart (intToChars a.serial) 5 :=
    noNL_padStart (noNL_intToChars _) 5
  have hnm : '\n' ∉ (if a.name.length ≤ 3 then padEnd (' ' :: a.name) 4
      else padEnd a.name 4) := by
    split
    · exact noNL_padEnd (noNL_cons (by decide) hname) 4
    · exact noNL_padEnd hname 4
  have hres3 : '\n' ∉ padEnd a.resName 3 := noNL_padEnd hres 3
  have hchain2 : '\n' ∉ jsOrStr a.chainId [' '] := noNL_jsOrStr hchain (by decide)
  have hseq : '\n' ∉ padStart (intToChars a.resSeq) 4 :=
    noNL_padStart (noNL_intToChars _) 4
  have hx : '\n' ∉ padStart (toFixed3 a.x) 8 := noNL_padStart (noNL_toFixed3 _) 8
  have hy : '\n' ∉ padStart (toFixed3 a.y) 8 := noNL_padStart (noNL_toFixed3 _) 8
  have hz : '\n' ∉ padStart (toFixed3 a.z) 8 := noNL_padStart (noNL_toFixed3 _) 8
  have hcharge : '\n' ∉ padStart (toFixed3Rat a.charge) 8 :=
    noNL_padStart (noNL_toFixed3Rat _) 8
  have htype2 : '\n' ∉ padStart a.atomType 2 := noNL_padStart htype 2
  have hsp : '\n' ∉ ([' '] : JStr) := by decide
  have hsp4 : '\n' ∉ "    ".data := by decide
  have hocc : '\n' ∉ occupancyField := by decide
  have htemp : '\n' ∉ tempFactorField := by decide
  rw [formatPDBQTLine_eq]
  have t1 := noNL_append hrec hserial
  have t2 := noNL_append t1 hsp
  have t3 := noNL_append t2 hnm
  have t4 := noNL_append t3 hsp
  have t5 := noNL_append t4 hres3
  have t6 := noNL_append t5 hsp
  have t7 := noNL_append t6 hchain2
  have t8 := noNL_append t7 hseq
  have t9 := noNL_append t8 hsp4
  have t10 := noNL_append t9 hx
  have t11 := noNL_append t10 hy
  have t12 := noNL_append t11 hz
  have t13 := noNL_append t12 hocc
  have t14 := noNL_append t13 htemp
  have t15 := noNL_append t14 hsp4
  have t16 := noNL_append t15 hcharge
  have t17 := noNL_append t16 hsp
  exact noNL_append t17 htype2

/-- Membership characterization of `parsePDB`. -/
lemma parsePDB_mem {content : JStr} {a : Atom} (ha : a ∈ parsePDB content) :
    ∃ line ∈ splitNL content, ∃ idx, a = parsePDBLine line idx := by
  unfold parsePDB at ha
  suffices h : ∀ (l : List JStr) (acc : List Atom),
      a ∈ l.foldl (fun acc line =>
        if "ATOM".data.isPrefixOf line ∨ "HETATM".data.isPrefixOf line then
          acc ++ [parsePDBLine line acc.length] else acc) acc →
      a ∈ acc ∨ ∃ line ∈ l, ∃ idx, a = parsePDBLine line idx by
    rcases h (splitNL content) [] ha with h2 | h2
    · cases h2
    · exact h2
  intro l
  induction l with
  | nil =>
    intro acc h
    exact Or.inl h
  | cons line rest ih =>
    intro acc h
    rw [List.foldl_cons] at h
    by_cases hp : "ATOM".data.isPrefixOf line ∨ "HETATM".data.isPrefixOf line
    · rw [if_pos hp] at h
      rcases ih _ h with h2 | ⟨line2, hl2, idx, he⟩
      · rcases List.mem_append.mp h2 with h3 | h3
        · exact Or.inl h3
        · exact Or.inr ⟨line, List.mem_cons_self _ _, acc.length, List.mem_singleton.mp h3⟩
      · exact Or.inr ⟨line2, List.mem_cons_of_mem _ hl2, idx, he⟩
    · rw [if_neg hp] at h
      rcases ih _ h with h2 | ⟨line2, hl2, idx, he⟩
      · exact Or.inl h2
      · exact Or.inr ⟨line2, List.mem_cons_of_mem _ hl2, idx, he⟩

/-- `pdbElementOf`, with the lets flattened. -/
lemma pdbElementOf_eq (line atomName : JStr) :
    pdbElementOf line atomName =
      (if (if 78 ≤ line.length then jsTrim (jsSubstring line 76 78) else []) = [] then
        (if (atomName.filter (fun c => !(c.isDigit))).take 1 = [] then "C".data
         else (atomName.filter (fun c => !(c.isDigit))).take 1)
      else (if 78 ≤ line.length then jsTrim (jsSubstring line 76 78) else [])) := rfl

lemma pdbElementOf_noNL {line atomName : JStr} (hl : '\n' ∉ line) (hn : '\n' ∉ atomName) :
    '\n' ∉ pdbElementOf line atomName := by
  have h0 : '\n' ∉ (if 78 ≤ line.length then jsTrim (jsSubstring line 76 78) else []) := by
    split
    · exact noNL_trim (noNL_substring hl _ _)
    · intro hm
      cases hm
  have h1 : '\n' ∉ (atomName.filter (fun c => !(c.isDigit))).take 1 := by
    intro hm
    exact hn (List.mem_of_mem_filter ((List.take_prefix _ _).subset hm))
  rw [pdbElementOf_eq]
  by_cases hlen : 78 ≤ line.length
  · simp only [if_pos hlen]
    split
    · split
      · decide
      · exact h1
    · exact noNL_trim (noNL_substring hl _ _)
  · simp only [if_neg hlen, if_true]
    split
    · decide
    · exact h1

/-- The string fields of every atom parsed from a PDB file contain no
newline (they are substrings of single lines, or fixed fallbacks). -/
lemma parsePDB_fields_noNL {content : JStr} {a : Atom} (ha : a ∈ parsePDB content) :
    '\n' ∉ a.name ∧ '\n' ∉ a.resName ∧ '\n' ∉ a.chainId ∧ '\n' ∉ a.atomType := by
  obtain ⟨line, hline, idx, rfl⟩ := parsePDB_mem ha
  have hln : '\n' ∉ line := splitNL_no_newline content line hline
  have hname : '\n' ∉ jsTrim (jsSubstring line 12 16) := noNL_trim (noNL_substring hln _ _)
  refine ⟨hname, noNL_trim (noNL_substring hln _ _), ?_, ?_⟩
  · exact noNL_jsOrStr (noNL_trim (noNL_substring hln _ _)) (by decide)
  · exact getAutoDockAtomType_noNL (pdbElementOf_noNL hln hname)

/-- Membership characterization of the atom list returned by `parseSDF`. -/
lemma parseSDF_mem {content : JStr} {atoms : List Atom} (h : parseSDF content = .ok atoms)
    {a : Atom} (ha : a ∈ atoms) :
    ∃ line ∈ splitNL content, ∃ i, a = parseSDFAtom line i := by
  unfold parseSDF at h
  cases hf : ((splitNL content).drop 3).findIdx? countsLineMatch with
  | none =>
    rw [hf] at h
    cases h
  | some j =>
    rw [hf] at h
    have hatoms : sdfAtomsFrom (splitNL content) (3 + j) = atoms := Except.ok.inj h
    subst hatoms
    simp only [sdfAtomsFrom] at ha
    rcases List.mem_filterMap.mp ha with ⟨i, _, hfi⟩
    cases hg : (splitNL content).get? (3 + j + 1 + i) with
    | none =>
      simp only [hg] at hfi
      cases hfi
    | some atomLine =>
      simp only [hg] at hfi
      by_cases hempty : atomLine = []
      · rw [if_pos hempty] at hfi
        cases hfi
      · rw [if_neg hempty] at hfi
        injection hfi with hfi
        exact ⟨atomLine, List.get?_mem hg, i, hfi.symm⟩

/-- The string fields of every atom parsed from an SDF file contain no
newline. -/
lemma parseSDF_fields_noNL {content : JStr} {atoms : List Atom}
    (h : parseSDF content = .ok atoms) {a : Atom} (ha : a ∈ atoms) :
    '\n' ∉ a.name ∧ '\n' ∉ a.resName ∧ '\n' ∉ a.chainId ∧ '\n' ∉ a.atomType := by
  obtain ⟨line, hline, i, rfl⟩ := parseSDF_mem h ha
  have hln : '\n' ∉ line := splitNL_no_newline content line hline
  have hel : '\n' ∉ jsTrim (jsSubstring line 31 34) := noNL_trim (noNL_substring hln _ _)
  refine ⟨noNL_append hel (noNL_natToChars _), ?_, ?_, getAutoDockAtomType_noNL hel⟩
  · show '\n' ∉ "LIG".data
    decide
  · show '\n' ∉ "A".data
    decide

set_option maxHeartbeats 1000000 in
/-- Every line of the PDB conversion body is a `TER` record or a formatted
atom line. -/
lemma pdbBodyAux_mem : ∀ (lastChain : JStr) (atoms : List Atom) (l : JStr),
    l ∈ pdbBodyAux lastChain atoms → l = "TER".data ∨ ∃ a ∈ atoms, l = formatPDBQTLine a := by
  intro lastChain atoms
  induction atoms generalizing lastChain with
  | nil =>
    intro l hl
    cases hl
  | cons a rest ih =>
    intro l hl
    simp only [pdbBodyAux] at hl
    rcases List.mem_append.mp hl with h | h
    · split at h
      · exact Or.inl (List.mem_singleton.mp h)
      · cases h
    · rcases List.mem_cons.mp h with rfl | h
      · exact Or.inr ⟨a, List.mem_cons_self _ _, rfl⟩
      · rcases ih a.chainId l h with h2 | ⟨b, hb, he⟩
        · exact Or.inl h2
        · exact Or.inr ⟨b, List.mem_cons_of_mem _ hb, he⟩

set_option maxHeartbeats 1000000 in
lemma pdbOutLines_noNL (content : JStr) :
    ∀ l ∈ pdbOutLines (parsePDB content), '\n' ∉ l := by
  intro l hl
  simp only [pdbOutLines, List.mem_cons] at hl
  rcases hl with rfl | rfl | hl
  · decide
  · decide
  · rcases List.mem_append.mp hl with hb | ht
    · rcases pdbBodyAux_mem [] (parsePDB content) l hb with rfl | ⟨a, ha, rfl⟩
      · decide
      · obtain ⟨h1, h2, h3, h4⟩ := parsePDB_fields_noNL ha
        exact formatPDBQTLine_noNL h1 h2 h3 h4
    · rcases List.mem_cons.mp ht with rfl | ht
      · decide
      · rw [List.mem_singleton] at ht
        subst ht
        decide

lemma sdfOutLines_noNL {content : JStr} {atoms : List Atom}
    (h : parseSDF content = .ok atoms) :
    ∀ l ∈ sdfOutLines atoms, '\n' ∉ l := by
  intro l hl
  simp only [sdfOutLines, List.mem_cons] at hl
  rcases hl with rfl | rfl | rfl | rfl | hl
  · decide
  · decide
  · decide
  · decide
  · rcases List.mem_append.mp hl with hb | ht
    · rcases List.mem_map.mp hb with ⟨a, ha, rfl⟩
      obtain ⟨h1, h2, h3, h4⟩ := parseSDF_fields_noNL h ha
      exact formatPDBQTLine_noNL h1 h2 h3 h4
    · rcases List.mem_cons.mp ht with rfl | ht
      · decide
      · rw [List.mem_singleton] at ht
        subst ht
        decide

/-- Claim C4: every successful output of `convertPDBtoPDBQT` and of
`convertSDFtoPDBQT` contains, as one of its lines, the exact header
`'REMARK  Charges are estimated (not actual Gasteiger charges)'`. -/
theorem claim_C4_charges_remark (content out : JStr) :
    (convertPDBtoPDBQT content = .ok out →
      "REMARK  Charges are estimated (not actual Gasteiger charges)".data ∈ splitNL out) ∧
    (convertSDFtoPDBQT content = .ok out →
      "REMARK  Charges are estimated (not actual Gasteiger charges)".data ∈ splitNL out) := by
  constructor
  · intro h
    unfold convertPDBtoPDBQT at h
    by_cases hatoms : parsePDB content = []
    · rw [if_pos hatoms] at h
      cases h
    · rw [if_neg hatoms] at h
      injection h with h
      subst h
      rw [splitNL_joinNL (pdbOutLines (parsePDB content)) (by simp [pdbOutLines])
        (pdbOutLines_noNL content)]
      exact List.mem_cons_of_mem _ (List.mem_cons_self _ _)
  · intro h
    unfold convertSDFtoPDBQT at h
    cases hp : parseSDF content with
    | error e =>
      rw [hp] at h
      cases h
    | ok atoms =>
      simp only [hp] at h
      by_cases hempty : atoms = []
      · rw [if_pos hempty] at h
        cases h
      · rw [if_neg hempty] at h
        injection h with h
        subst h
        rw [splitNL_joinNL (sdfOutLines atoms) (by simp [sdfOutLines])
          (sdfOutLines_noNL hp)]
        exact List.mem_cons_of_mem _ (List.mem_cons_of_mem _ (List.mem_cons_self _ _))

/-- A two-atom SDF input for the C4 and C8 witnesses. -/
def sdfSample : JStr :=
  ("name\n  prog\ncomment\n  2  1  0  0  0  0  0  0  0  0999 V2000\n"
    ++ "    1.2340    2.3450    3.4560 C   0  0\n"
    ++ "    2.0000    3.0000    4.0000 O   0  0\n  1  2  1  0\nM  END\n$$$$").data

/-- A one-atom PDB input for the C4 witness. -/
def pdbSample : JStr :=
  "ATOM      1  N   MET A   1      38.428  13.104  23.371  1.00 54.69           N".data

/-- The successful output of the PDB conversion of `pdbSample`. -/
def pdbSampleOut : JStr :=
  match convertPDBtoPDBQT pdbSample with
  | .ok out => out
  | .error _ => []

/-- The successful output of the SDF conversion of `sdfSample`. -/
def sdfSampleOut : JStr :=
  match convertSDFtoPDBQT sdfSample with
  | .ok out => out
  | .error _ => []

/-- Witness for C4 on concrete PDB and SDF inputs. -/
theorem claim_C4_charges_remark_witness :
    "REMARK  Charges are estimated (not actual Gasteiger charges)".data
      ∈ splitNL pdbSampleOut ∧
    "REMARK  Charges are estimated (not actual Gasteiger charges)".data
      ∈ splitNL sdfSampleOut :=
  ⟨(claim_C4_charges_remark pdbSample pdbSampleOut).1 (by rfl),
    (claim_C4_charges_remark sdfSample sdfSampleOut).2 (by rfl)⟩

/-! ## Claim C8: recognition of converted output by `isPDBQT` -/

lemma padStart_length (l : JStr) (n : Nat) :
    (padStart l n).length = n - l.length + l.length := by
  simp [padStart]

lemma padStart_length_of_le {l : JStr} {n : Nat} (h : l.length ≤ n) :
    (padStart l n).length = n := by
  rw [padStart_length]
  omega

lemma padEnd_length_of_le {l : JStr} {n : Nat} (h : l.length ≤ n) :
    (padEnd l n).length = n := by
  simp [padEnd]
  omega

/-- The width bounds under which the fields of `formatPDBQTLine` occupy
exactly their nominal PDB columns. -/
def nominalAtom (a : Atom) : Prop :=
  (intToChars a.serial).length ≤ 5 ∧ a.name.length ≤ 4 ∧ a.resName.length ≤ 3 ∧
  a.chainId.length ≤ 1 ∧ (intToChars a.resSeq).length ≤ 4 ∧
  (toFixed3 a.x).length ≤ 8 ∧ (toFixed3 a.y).length ≤ 8 ∧ (toFixed3 a.z).length ≤ 8 ∧
  (toFixed3Rat a.charge).length ≤ 8 ∧ a.atomType.length ≤ 2

instance (a : Atom) : Decidable (nominalAtom a) := by
  unfold nominalAtom
  infer_instance

/-- Columns 68-76 of a line of the shape `prefix(66) ++ gap(4) ++
charge(8) ++ suffix` are three spaces followed by the first six characters
of the charge field. -/
lemma charge_window_extract (preA chargeF post : JStr) (h66 : preA.length = 66)
    (h8 : chargeF.length = 8) :
    jsSubstring (((preA ++ "    ".data) ++ chargeF) ++ post) 67 76
      = "   ".data ++ chargeF.take 6 := by
  have hlen0 : (preA ++ "    ".data).length = 70 := by simp [h66]
  have hlen1 : ((preA ++ "    ".data) ++ chargeF).length = 78 := by simp [h66, h8]
  unfold jsSubstring
  rw [List.take_append_eq_append_take, hlen1, (by norm_num : (76 : Nat) - 78 = 0),
    List.take_zero, List.append_nil]
  rw [List.take_append_eq_append_take, List.take_all_of_le (by rw [hlen0]; norm_num),
    hlen0, (by norm_num : (76 : Nat) - 70 = 6)]
  rw [List.drop_append_eq_append_drop, List.drop_append_eq_append_drop,
    List.drop_eq_nil_of_le (by rw [h66]; norm_num), h66, hlen0,
    (by norm_num : (67 : Nat) - 66 = 1), (by norm_num : (67 : Nat) - 70 = 0),
    List.drop_zero, List.nil_append]
  rfl

/-- The first six characters of the padded charge field: the pad spaces,
the optional sign, the integer digits, the point, and the first fraction
digit (the last two fraction digits are cut off). -/
lemma take6_padStart_toFixed {q : ℚ} (h8 : (toFixed3Rat q).length ≤ 8) :
    ∃ (k : Nat) (sgn ip : JStr) (d1 : Char),
      (padStart (toFixed3Rat q) 8).take 6
        = List.replicate k ' ' ++ (sgn ++ ip ++ ['.', d1]) ∧
      (sgn = [] ∨ sgn = ['-']) ∧ ¬ ip = [] ∧ (∀ c ∈ ip, c.isDigit = true) ∧
      d1.isDigit = true := by
  obtain ⟨sgn, ip, fp, he, hs, hipne, hipd, hfl, hfd⟩ := toFixed3Rat_structure q
  obtain ⟨d1, d2, d3, rfl⟩ := List.length_eq_three.mp hfl
  have hipl : 1 ≤ ip.length := List.length_pos.mpr hipne
  have hL : (toFixed3Rat q).length = sgn.length + ip.length + 4 := by
    rw [he]
    simp only [List.length_append, List.length_cons, List.length_nil]
  refine ⟨8 - (toFixed3Rat q).length, sgn, ip, d1, ?_, hs, hipne, hipd,
    hfd d1 (by simp)⟩
  unfold padStart
  rw [List.take_append_eq_append_take,
    List.take_all_of_le (by rw [List.length_replicate]; omega), List.length_replicate,
    (by omega : 6 - (8 - (toFixed3Rat q).length) = (toFixed3Rat q).length - 2)]
  congr 1
  have h2 : (toFixed3Rat q).length - 2 = (sgn ++ ip).length + 2 := by
    rw [List.length_append]
    omega
  rw [h2, he, List.take_append_eq_append_take, List.take_all_of_le (by omega),
    (by omega : (sgn ++ ip).length + 2 - (sgn ++ ip).length = 2)]
  rfl

lemma digit_not_ws {c : Char} (h : c.isDigit = true) : isWSChar c = false := by
  by_contra hne
  have hws : isWSChar c = true := by
    cases hx : isWSChar c
    · exact absurd hx hne
    · rfl
  unfold isWSChar at hws
  simp only [Bool.or_eq_true, decide_eq_true_eq] at hws
  rcases hws with (((((rfl | rfl) | rfl) | rfl) | rfl) | rfl) <;> exact absurd h (by decide)

lemma dropWhile_ws_replicate (k : Nat) (l : JStr) :
    (List.replicate k ' ' ++ l).dropWhile isWSChar = l.dropWhile isWSChar := by
  induction k with
  | zero => simp
  | succ k ih =>
    rw [List.replicate_succ, List.cons_append, List.dropWhile_cons]
    simp only [(by decide : isWSChar ' ' = true), if_true]
    exact ih

/-- Trimming a string of leading spaces followed by a core whose first and
last characters are not whitespace returns the core. -/
lemma jsTrim_spaces_core {core : JStr} (k : Nat)
    (hhead : ∀ c, core.head? = some c → isWSChar c = false)
    (hlast : ∀ c, core.getLast? = some c → isWSChar c = false) :
    jsTrim (List.replicate k ' ' ++ core) = core := by
  unfold jsTrim
  rw [dropWhile_ws_replicate]
  have h1 : core.dropWhile isWSChar = core := by
    cases core with
    | nil => rfl
    | cons c rest =>
      rw [List.dropWhile_cons, hhead c rfl]
      simp
  rw [h1]
  have h2 : core.reverse.dropWhile isWSChar = core.reverse := by
    cases hcr : core.reverse with
    | nil => rfl
    | cons c rest =>
      have hg : core.getLast? = some c := by
        rw [← List.head?_reverse, hcr]
        rfl
      rw [List.dropWhile_cons, hlast c hg]
      simp
  rw [h2, List.reverse_reverse]

lemma takeWhile_digits_append (rest : JStr) : ∀ ip : JStr,
    (∀ c ∈ ip, c.isDigit = true) →
    (ip ++ '.' :: rest).takeWhile Char.isDigit = ip ∧
    (ip ++ '.' :: rest).dropWhile Char.isDigit = '.' :: rest := by
  intro ip
  induction ip with
  | nil =>
    intro _
    constructor
    · rw [List.nil_append, List.takeWhile_cons]
      simp
    · rw [List.nil_append, List.dropWhile_cons]
      simp
  | cons c t ih =>
    intro hall
    have hc : c.isDigit = true := hall c (List.mem_cons_self _ _)
    obtain ⟨ih1, ih2⟩ := ih (fun x hx => hall x (List.mem_cons_of_mem _ hx))
    constructor
    · rw [List.cons_append, List.takeWhile_cons, hc]
      simp [ih1]
    · rw [List.cons_append, List.dropWhile_cons, hc]
      simp [ih2]

/-- The trimmed charge window passes the charge regex. -/
lemma chargeRegex_core {sgn ip : JStr} {d1 : Char} (hs : sgn = [] ∨ sgn = ['-'])
    (hipne : ¬ ip = []) (hipd : ∀ c ∈ ip, c.isDigit = true) (hd1 : d1.isDigit = true) :
    chargeRegexMatch (sgn ++ ip ++ ['.', d1]) = true := by
  obtain ⟨i0, irest, rfl⟩ := List.exists_cons_of_ne_nil hipne
  have hi0 : i0.isDigit = true := hipd i0 (List.mem_cons_self _ _)
  have hi0ne : ¬ i0 = '-' := by
    intro heq
    rw [heq] at hi0
    exact absurd hi0 (by decide)
  have hbody : ((i0 :: irest) ++ '.' :: [d1]).takeWhile Char.isDigit = i0 :: irest ∧
      ((i0 :: irest) ++ '.' :: [d1]).dropWhile Char.isDigit = '.' :: [d1] :=
    takeWhile_digits_append [d1] (i0 :: irest) hipd
  rcases hs with rfl | rfl
  · simp only [chargeRegexMatch, List.nil_append]
    rw [if_neg (by simp [hi0ne])]
    rw [hbody.1, hbody.2]
    simp [hd1]
  · simp only [chargeRegexMatch]
    rw [if_pos (by rfl)]
    have key : (decide (¬ ((i0 :: irest) ++ ['.', d1]).takeWhile Char.isDigit = []) &&
        decide ((((i0 :: irest) ++ ['.', d1]).dropWhile Char.isDigit).head? = some '.') &&
        decide (¬ (((i0 :: irest) ++ ['.', d1]).dropWhile Char.isDigit).tail = []) &&
        (((i0 :: irest) ++ ['.', d1]).dropWhile Char.isDigit).tail.all Char.isDigit) = true := by
      rw [hbody.1, hbody.2]
      simp [hd1]
    exact key

/-- The charge window of a nominal formatted line is non-empty after
trimming and passes the regex. -/
lemma chargeRegex_window {q : ℚ} (h8 : (toFixed3Rat q).length ≤ 8) :
    ¬ jsTrim ("   ".data ++ (padStart (toFixed3Rat q) 8).take 6) = [] ∧
    chargeRegexMatch (jsTrim ("   ".data ++ (padStart (toFixed3Rat q) 8).take 6)) = true := by
  obtain ⟨k, sgn, ip, d1, heq, hs, hipne, hipd, hd1⟩ := take6_padStart_toFixed h8
  rw [heq]
  have h3 : ("   ".data : JStr) = List.replicate 3 ' ' := rfl
  have hrw : ("   ".data : JStr) ++ (List.replicate k ' ' ++ (sgn ++ ip ++ ['.', d1]))
      = List.replicate (3 + k) ' ' ++ (sgn ++ ip ++ ['.', d1]) := by
    rw [List.replicate_add, h3, ← List.append_assoc]
  rw [hrw]
  have htrim : jsTrim (List.replicate (3 + k) ' ' ++ (sgn ++ ip ++ ['.', d1]))
      = sgn ++ ip ++ ['.', d1] := by
    refine jsTrim_spaces_core (3 + k) ?_ ?_
    · intro c hc
      rcases hs with rfl | rfl
      · obtain ⟨i0, irest, rfl⟩ := List.exists_cons_of_ne_nil hipne
        have hcc : i0 = c := Option.some.inj hc
        rw [← hcc]
        exact digit_not_ws (hipd i0 (List.mem_cons_self _ _))
      · have hcc : '-' = c := Option.some.inj hc
        rw [← hcc]
        decide
    · intro c hc
      have hg : ((sgn ++ ip) ++ ['.', d1]).getLast? = some d1 := by
        rw [List.getLast?_append_of_ne_nil _ (by simp)]
        rfl
      rw [hg] at hc
      have hcc : d1 = c := Option.some.inj hc
      rw [← hcc]
      exact digit_not_ws hd1
  rw [htrim]
  refine ⟨?_, chargeRegex_core hs hipne hipd hd1⟩
  rcases hs with rfl | rfl <;> simp

/-- Under the nominal width bounds, a formatted line is a 66-character
prefix, the four-space gap, the 8-character charge field, and the
atom-type tail. -/
lemma formatted_line_shape (a : Atom) (h : nominalAtom a) :
    ∃ preA : JStr, preA.length = 66 ∧
      formatPDBQTLine a
        = ((preA ++ "    ".data) ++ padStart (toFixed3Rat a.charge) 8)
            ++ ([' '] ++ padStart a.atomType 2) := by
  obtain ⟨h1, h2, h3, h4, h5, h6, h7, h8, h9, h10⟩ := h
  refine ⟨(if a.resName = "LIG".data then "HETATM".data else "ATOM  ".data)
      ++ padStart (intToChars a.serial) 5 ++ [' ']
      ++ (if a.name.length ≤ 3 then padEnd (' ' :: a.name) 4 else padEnd a.name 4)
      ++ [' '] ++ padEnd a.resName 3 ++ [' '] ++ jsOrStr a.chainId [' ']
      ++ padStart (intToChars a.resSeq) 4 ++ "    ".data
      ++ padStart (toFixed3 a.x) 8 ++ padStart (toFixed3 a.y) 8
      ++ padStart (toFixed3 a.z) 8 ++ occupancyField ++ tempFactorField, ?_, ?_⟩
  · have hrec : (if a.resName = "LIG".data then "HETATM".data
        else "ATOM  ".data).length = 6 := by split <;> rfl
    have hser : (padStart (intToChars a.serial) 5).length = 5 := padStart_length_of_le h1
    have hnm : (if a.name.length ≤ 3 then padEnd (' ' :: a.name) 4
        else padEnd a.name 4).length = 4 := by
      by_cases hn : a.name.length ≤ 3
      · rw [if_pos hn]
        exact padEnd_length_of_le (by simp; omega)
      · rw [if_neg hn]
        exact padEnd_length_of_le h2
    have hres3 : (padEnd a.resName 3).length = 3 := padEnd_length_of_le h3
    have hch : (jsOrStr a.chainId [' ']).length = 1 := by
      unfold jsOrStr
      by_cases hc : a.chainId = []
      · rw [if_pos hc]
        rfl
      · rw [if_neg hc]
        have : 0 < a.chainId.length := List.length_pos.mpr hc
        omega
    have hseq : (padStart (intToChars a.resSeq) 4).length = 4 := padStart_length_of_le h5
    have hx : (padStart (toFixed3 a.x) 8).length = 8 := padStart_length_of_le h6
    have hy : (padStart (toFixed3 a.y) 8).length = 8 := padStart_length_of_le h7
    have hz : (padStart (toFixed3 a.z) 8).length = 8 := padStart_length_of_le h8
    simp only [List.length_append]
    rw [hrec, hser, hnm, hres3, hch, hseq, hx, hy, hz]
    rfl
  · rw [formatPDBQTLine_eq]
    simp only [List.append_assoc]

/-- Every nominal formatted line contributes 1 to the valid-charge
counter of `isPDBQT`. -/
lemma formatted_validCharge {a : Atom} (h : nominalAtom a) :
    validChargeInc (formatPDBQTLine a) = 1 := by
  obtain ⟨preA, hpre, heq⟩ := formatted_line_shape a h
  have h9 : (toFixed3Rat a.charge).length ≤ 8 := h.2.2.2.2.2.2.2.2.1
  have hcf : (padStart (toFixed3Rat a.charge) 8).length = 8 := padStart_length_of_le h9
  have hsp4 : ("    ".data : JStr).length = 4 := rfl
  have hsp1 : ([' '] : JStr).length = 1 := rfl
  have hlen : 76 ≤ (formatPDBQTLine a).length := by
    rw [heq]
    simp only [List.length_append, hpre, hcf, hsp4, hsp1]
    omega
  have hwin : jsSubstring (formatPDBQTLine a) 67 76
      = "   ".data ++ (padStart (toFixed3Rat a.charge) 8).take 6 := by
    rw [heq]
    exact charge_window_extract preA (padStart (toFixed3Rat a.charge) 8)
      ([' '] ++ padStart a.atomType 2) hpre hcf
  obtain ⟨hne, hreg⟩ := chargeRegex_window h9
  unfold validChargeInc
  rw [if_pos hlen, hwin, if_pos ⟨hne, hreg⟩]

lemma isPrefixOf_append_left {p q : JStr} (h : p <+: q) (t : JStr) :
    p.isPrefixOf (q ++ t) = true := by
  rw [List.isPrefixOf_iff_prefix]
  exact h.trans (List.prefix_append q t)

/-- Formatted lines start with `ATOM` or `HETATM`. -/
lemma formatted_isAtomLine (a : Atom) : isAtomLine (formatPDBQTLine a) = true := by
  unfold isAtomLine
  rw [formatPDBQTLine_eq]
  by_cases hres : a.resName = "LIG".data
  · rw [if_pos hres]
    simp only [List.append_assoc]
    rw [Bool.or_eq_true]
    exact Or.inr (isPrefixOf_append_left List.prefix_rfl _)
  · rw [if_neg hres]
    simp only [List.append_assoc]
    rw [Bool.or_eq_true]
    exact Or.inl (isPrefixOf_append_left ⟨"  ".data, rfl⟩ _)

set_option maxHeartbeats 1000000 in
/-- Formatted lines never start with a PDBQT ligand keyword. -/
lemma formatted_not_keyword (a : Atom) :
    isPDBQTLineKeyword (formatPDBQTLine a) = false := by
  unfold isPDBQTLineKeyword
  rw [formatPDBQTLine_eq]
  by_cases hres : a.resName = "LIG".data
  · rw [if_pos hres]
    simp only [List.append_assoc]
    rfl
  · rw [if_neg hres]
    simp only [List.append_assoc]
    rfl

/-- A non-keyword non-atom line is skipped by the `isPDBQT` loop. -/
lemma isPDBQTAux_skip {l : JStr} (hk : isPDBQTLineKeyword l = false)
    (ha : isAtomLine l = false) (rest : List JStr) (a s v : Nat) :
    isPDBQTAux (l :: rest) a s v = isPDBQTAux rest a s v := by
  simp [isPDBQTAux, hk, ha]

/-- A non-keyword atom line bumps the three counters of `isPDBQT`. -/
lemma isPDBQTAux_atom {l : JStr} (hk : isPDBQTLineKeyword l = false)
    (ha : isAtomLine l = true) (rest : List JStr) (a s v : Nat) :
    isPDBQTAux (l :: rest) a s v
      = isPDBQTAux rest (a + 1) (s + specificTypeInc l) (v + validChargeInc l) := by
  simp [isPDBQTAux, hk, ha]

/-- If every atom line of the remaining input has a valid charge field and
no keyword occurs, the loop accepts as soon as one atom was or will be
counted: the valid-charge count keeps pace with the atom count. -/
lemma isPDBQTAux_count : ∀ lines : List JStr,
    (∀ l ∈ lines, isPDBQTLineKeyword l = false) →
    (∀ l ∈ lines, isAtomLine l = true → validChargeInc l = 1) →
    ∀ a s, (0 < a ∨ ∃ l ∈ lines, isAtomLine l = true) →
      isPDBQTAux lines a s a = true := by
  intro lines
  induction lines with
  | nil =>
    intro _ _ a s hpos
    rcases hpos with hpos | ⟨l, hl, _⟩
    · unfold isPDBQTAux
      by_cases hs : 0 < s
      · rw [if_pos hs]
      · rw [if_neg hs, if_pos ⟨hpos, by omega⟩]
    · exact absurd hl (List.not_mem_nil l)
  | cons l rest ih =>
    intro hk hcv a s hpos
    have hkl : isPDBQTLineKeyword l = false := hk l (List.mem_cons_self l rest)
    by_cases hal : isAtomLine l = true
    · rw [isPDBQTAux_atom hkl hal, hcv l (List.mem_cons_self l rest) hal]
      exact ih (fun x hx => hk x (List.mem_cons_of_mem l hx))
        (fun x hx => hcv x (List.mem_cons_of_mem l hx)) (a + 1) (s + specificTypeInc l)
        (Or.inl (Nat.succ_pos a))
    · have hal2 : isAtomLine l = false := by
        cases hx : isAtomLine l
        · rfl
        · exact absurd hx hal
      rw [isPDBQTAux_skip hkl hal2]
      refine ih (fun x hx => hk x (List.mem_cons_of_mem l hx))
        (fun x hx => hcv x (List.mem_cons_of_mem l hx)) a s ?_
      rcases hpos with hp | ⟨l2, hl2, hat⟩
      · exact Or.inl hp
      · rcases List.mem_cons.mp hl2 with rfl | hm
        · exact absurd hat hal
        · exact Or.inr ⟨l2, hm, hat⟩

attribute [local semireducible] Rat.add Rat.mul Rat.inv Rat.sub Rat.ofScientific

/-- **C8** (amended): every successful `convertSDFtoPDBQT` output is
recognized by `isPDBQT` (its `ROOT` line is a ligand keyword); a
successful `convertPDBtoPDBQT` output is recognized provided every parsed
atom's formatted fields fit their nominal fixed columns (`nominalAtom`);
without that proviso the claim is false — an over-wide coordinate field
shifts the charge columns and defeats the detector
(see the counterexample). -/
theorem claim_C8_conversion_recognized (content out : JStr) :
    (convertSDFtoPDBQT content = .ok out → isPDBQT out = true) ∧
    (convertPDBtoPDBQT content = .ok out →
      (∀ a ∈ parsePDB content, nominalAtom a) → isPDBQT out = true) := by
  constructor
  · intro hconv
    unfold convertSDFtoPDBQT at hconv
    cases hp : parseSDF content with
    | error e =>
      rw [hp] at hconv
      exact absurd hconv (by simp)
    | ok atoms =>
      rw [hp] at hconv
      by_cases hnil : atoms = []
      · simp only [if_pos hnil] at hconv
        exact absurd hconv (by simp)
      · simp only [if_neg hnil] at hconv
        have hout : out = joinNL (sdfOutLines atoms) := (Except.ok.inj hconv).symm
        rw [hout]
        unfold isPDBQT
        rw [splitNL_joinNL _ (by simp [sdfOutLines]) (sdfOutLines_noNL hp)]
        rfl
  · intro hconv hnom
    simp only [convertPDBtoPDBQT] at hconv
    by_cases hnil : parsePDB content = []
    · simp only [if_pos hnil] at hconv
      exact absurd hconv (by simp)
    · simp only [if_neg hnil] at hconv
      have hout : out = joinNL (pdbOutLines (parsePDB content)) :=
        (Except.ok.inj hconv).symm
      rw [hout]
      unfold isPDBQT
      rw [splitNL_joinNL _ (by simp [pdbOutLines]) (pdbOutLines_noNL content)]
      unfold pdbOutLines
      rw [isPDBQTAux_skip (by decide) (by decide), isPDBQTAux_skip (by decide) (by decide)]
      refine isPDBQTAux_count _ ?_ ?_ 0 0 ?_
      · intro l hl
        rcases List.mem_append.mp hl with hb | ht
        · rcases pdbBodyAux_mem [] _ l hb with h | ⟨a, _, h⟩
          · rw [h]
            decide
          · rw [h]
            exact formatted_not_keyword a
        · rcases List.mem_cons.mp ht with h | ht2
          · rw [h]
            decide
          · rcases List.mem_cons.mp ht2 with h | h3
            · rw [h]
              decide
            · exact absurd h3 (List.not_mem_nil l)
      · intro l hl hat
        rcases List.mem_append.mp hl with hb | ht
        · rcases pdbBodyAux_mem [] _ l hb with h | ⟨a, ha, h⟩
          · rw [h] at hat
            exact absurd hat (by decide)
          · rw [h]
            exact formatted_validCharge (hnom a ha)
        · rcases List.mem_cons.mp ht with h | ht2
          · rw [h] at hat
            exact absurd hat (by decide)
          · rcases List.mem_cons.mp ht2 with h | h3
            · rw [h] at hat
              exact absurd hat (by decide)
            · exact absurd h3 (List.not_mem_nil l)
      · obtain ⟨a0, rest, hrw⟩ := List.exists_cons_of_ne_nil hnil
        refine Or.inr ⟨formatPDBQTLine a0, ?_, formatted_isAtomLine a0⟩
        apply List.mem_append_left
        rw [hrw]
        unfold pdbBodyAux
        rw [if_neg (by simp)]
        exact List.mem_cons_self _ _

/-- A PDB input whose x-coordinate field parses to 99999999: `toFixed(3)`
then needs 12 characters, `padStart(8)` does not truncate, and the
formatted line overflows its fixed columns. -/
def c8Bad : JStr :=
  "ATOM      1  N   MET A   1      99999999  13.104  23.371  1.00 54.69           N".data

/-- The successful output of the PDB conversion of `c8Bad`. -/
def c8BadOut : JStr :=
  match convertPDBtoPDBQT c8Bad with
  | .ok out => out
  | .error _ => []

set_option maxRecDepth 10000 in
set_option maxHeartbeats 4000000 in
/-- **C8 counterexample**: `convertPDBtoPDBQT` succeeds on `c8Bad`, yet
`isPDBQT` rejects its output — the 12-character coordinate field shifts
the charge window off its fixed columns, so the detector counts no valid
charges and the claimed round trip fails. -/
theorem claim_C8_counterexample :
    convertPDBtoPDBQT c8Bad = .ok c8BadOut ∧ isPDBQT c8BadOut = false := by
  exact ⟨rfl, by decide⟩

/-- Witness for C8 on concrete SDF and PDB inputs. -/
theorem claim_C8_conversion_recognized_witness :
    isPDBQT sdfSampleOut = true ∧ isPDBQT pdbSampleOut = true :=
  ⟨(claim_C8_conversion_recognized sdfSample sdfSampleOut).1 (by rfl),
    (claim_C8_conversion_recognized pdbSample pdbSampleOut).2 (by rfl) (by decide)⟩


end SimDock
